import Mathlib

/-!
Shallow embedding of crossbeam-channel's `select.rs` (the dynamic selection
driver): the `Selected`/`Operation` encodings, the `run_select` and
`run_ready` drivers, the `Select` builder and `SelectedOperation`.

Concurrency is embedded by a deterministic environment oracle (`PeerEnv`):
every call the driver makes to a handle or to the clock consumes one tick of
a global counter and reads its answer from the oracle at that tick; at every
tick the oracle may additionally let a peer thread CAS the context's
selection slot.  The drivers also emit a trace of the calls they perform, so
that protocol obligations (registration balance, which entries were probed)
can be stated over traces.
-/

namespace Crossbeam

/-- Instants are machine words; the embedding only ever compares them. -/
abbrev Instant := Nat

/-- Identifier associated with an operation by a specific thread on a
specific channel (select.rs, `struct Operation(usize)`). -/
structure Operation where
  val : Nat
deriving DecidableEq, Repr

/-- The address-to-identifier conversion inside `Operation::hook`, without
the sentinel assertion. -/
def Operation.ofAddr (a : Nat) : Operation := ⟨a⟩

/-- `Operation::hook`: turns the address of a live slot into an operation
identifier, asserting that it does not collide with the numerical
representation of the three `Selected` sentinels (`assert!(val > 2)`).  The
Rust panic of a failed assertion is modelled as `none`. -/
def Operation.hook (a : Nat) : Option Operation :=
  if 2 < a then some (Operation.ofAddr a) else none

/-- Current state of a select or a blocking operation (select.rs,
`enum Selected`). -/
inductive Selected
  | waiting
  | aborted
  | disconnected
  | operation (op : Operation)
deriving DecidableEq, Repr

/-- `impl From<usize> for Selected`. -/
def Selected.ofNat (v : Nat) : Selected :=
  match v with
  | 0 => Selected.waiting
  | 1 => Selected.aborted
  | 2 => Selected.disconnected
  | oper => Selected.operation (Operation.ofAddr oper)

/-- `impl Into<usize> for Selected`. -/
def Selected.toNat : Selected → Nat
  | Selected.waiting => 0
  | Selected.aborted => 1
  | Selected.disconnected => 2
  | Selected.operation op => op.val

/-- A `Selected` value that can actually arise at runtime: operation
identifiers never collide with the sentinel values (enforced by the
assertion in `Operation::hook`). -/
def Selected.valid : Selected → Prop
  | Selected.operation op => 2 < op.val
  | _ => True

/-- One element of the handle list `(&SelectHandle, usize, *const u8)`
passed to `run_select` / `run_ready`: the caller-assigned index and the
endpoint address.  The handle itself is abstract; its behaviour is supplied
by the environment oracle. -/
structure Entry where
  idx : Nat
  ptr : Nat
deriving DecidableEq, Repr

/-- Events recorded by the drivers: one per call made to a handle, to the
context, to the clock, or to the sleep primitive. -/
inductive Ev
  | trySelEv (idx ptr : Nat) (ok : Bool)
  | regEv (op : Nat) (ready : Bool)
  | unregEv (op : Nat)
  | acceptEv (op : Nat) (ok : Bool)
  | casEv (ok : Bool)
  | waitEv
  | stateEv (v : Nat)
  | deadlineEv (d : Option Instant)
  | nowEv (v : Instant)
  | sleepEv (d : Option Instant)
  | readyEv (idx : Nat) (ok : Bool)
  | snoozeEv (again : Bool)
  | watchEv (op : Nat) (ready : Bool)
  | unwatchEv (op : Nat)
deriving DecidableEq, Repr

/-- Environment oracle.  `ans k` answers the boolean-returning handle call
performed at tick `k` (`try_select`, `register`, `accept`, `is_ready`,
`watch`, or a `Backoff::snooze`); `stateAns`, `deadlineAns`, `tokAns` and
`nowAns` answer `state()`, `deadline()`, the token value a successful
`try_select`/`accept` deposits, and `Instant::now()`.  `peerAt k` is the
CAS a peer thread may attempt on the selection slot at tick `k`.  `opAddr p`
is the stable address of the `p`-th slot of the handle list, from which
`Operation::hook` mints operation identifiers. -/
structure PeerEnv where
  ans : Nat → Bool
  stateAns : Nat → Nat
  deadlineAns : Nat → Option Instant
  tokAns : Nat → Nat
  nowAns : Nat → Instant
  peerAt : Nat → Option Selected
  opAddr : Nat → Nat

/-- Driver-visible state: the tick counter, the context's selection slot,
the token scratch, and the trace of calls performed so far. -/
structure St where
  k : Nat
  slot : Selected
  tok : Nat
  trace : List Ev
deriving DecidableEq, Repr

/-- Initial state of one driver invocation. -/
def St.init : St := ⟨0, Selected.waiting, 0, []⟩

/-- A peer attempts to CAS the selection slot from `Waiting` to a terminal
value; any other attempt has no effect. -/
def peerCas (w : Option Selected) (s : Selected) : Selected :=
  match w with
  | none => s
  | some v => if s = Selected.waiting ∧ v ≠ Selected.waiting then v else s

/-- Record one event. -/
def St.push (st : St) (ev : Ev) : St := { st with trace := st.trace ++ [ev] }

/-- Consume one tick: advance the counter and give a peer its chance to CAS
the selection slot. -/
def St.bump (st : St) (env : PeerEnv) : St :=
  { st with k := st.k + 1, slot := peerCas (env.peerAt st.k) st.slot }

/-- `Context::try_select`: CAS of the selection slot from `Waiting` to the
desired value; on failure the currently observed state is returned. -/
def ctxTrySelect (st : St) (desired : Selected) : (Bool × Selected) × St :=
  if st.slot = Selected.waiting then
    ((true, desired), { st with slot := desired })
  else
    ((false, st.slot), st)

/-- `Context::wait_until`: park until the slot leaves `Waiting` or the
deadline elapses; on timeout, self-CAS the slot to `Aborted` and return the
then-observed state.  With no deadline and no peer wakeup the thread parks
forever, modelled as `none`. -/
def ctxWaitUntil (env : PeerEnv) (deadline : Option Instant) (st : St) :
    Option Selected × St :=
  let st1 := (st.push Ev.waitEv).bump env
  if st1.slot ≠ Selected.waiting then (some st1.slot, st1)
  else
    match deadline with
    | none => (none, st1)
    | some _ => (some Selected.aborted, { st1 with slot := Selected.aborted })

/-- `enum Timeout` (select.rs). -/
inductive Timeout
  | now
  | never
  | At (t : Instant)
deriving DecidableEq, Repr

/-- Result of one `run_select` invocation.  `diverge` marks executions in
which the thread sleeps forever; `outOfFuel` marks executions the bounded
embedding could not finish; `unreach` marks the Rust `unreachable!` sites. -/
inductive RunRes
  | found (tok idx ptr : Nat)
  | nothingReady
  | diverge
  | outOfFuel
  | unreach
deriving DecidableEq, Repr

/-- One pass of `for &(handle, i, ptr) in handles.iter()` attempting
`handle.try_select(&mut token)`, returning the first success. -/
def tryPass (env : PeerEnv) : List Entry → St → Option (Nat × Nat) × St
  | [], st => (none, st)
  | e :: rest, st =>
    let ok := env.ans st.k
    let tokv := env.tokAns st.k
    let st1 := (st.push (Ev.trySelEv e.idx e.ptr ok)).bump env
    if ok then (some (e.idx, e.ptr), { st1 with tok := tokv })
    else tryPass env rest st1

/-- Snapshot the channel states of all operations
(`states.push(handle.state())`). -/
def readStates (env : PeerEnv) : List Entry → St → List Nat × St
  | [], st => ([], st)
  | _e :: rest, st =>
    let v := env.stateAns st.k
    let st1 := (st.push (Ev.stateEv v)).bump env
    let (vs, st2) := readStates env rest st1
    (v :: vs, st2)

/-- Re-read every `state()`, update the snapshot in place and report whether
any entry changed (the `zip` loop of the non-blocking path). -/
def stateCheck (env : PeerEnv) : List Entry → List Nat → St →
    List Nat × Bool × St
  | _e :: rest, old :: olds, st =>
    let v := env.stateAns st.k
    let st1 := (st.push (Ev.stateEv v)).bump env
    let (vs, ch, st2) := stateCheck env rest olds st1
    (v :: vs, (old != v) || ch, st2)
  | _, _, st => ([], false, st)

/-- The retry loop of the non-blocking path: try every operation, then
re-check the liveness snapshot; give up only when nothing changed. -/
def nowLoop (env : PeerEnv) (hs : List Entry) : Nat → List Nat → St →
    RunRes × St
  | 0, _, st => (RunRes.outOfFuel, st)
  | fuel + 1, states, st =>
    match tryPass env hs st with
    | (some (i, p), st1) => (RunRes.found st1.tok i p, st1)
    | (none, st1) =>
      let (states1, changed, st2) := stateCheck env hs states st1
      if changed then nowLoop env hs fuel states1 st2
      else (RunRes.nothingReady, st2)

/-- The non-blocking (`Timeout::Now`) path of `run_select` on a non-empty
list: a single pass when the list has at most one entry, otherwise the
snapshot-and-retry loop. -/
def nowPath (env : PeerEnv) (hs : List Entry) (fuel : Nat) (st : St) :
    RunRes × St :=
  if hs.length ≤ 1 then
    match tryPass env hs st with
    | (some (i, p), st1) => (RunRes.found st1.tok i p, st1)
    | (none, st1) => (RunRes.nothingReady, st1)
  else
    let (states, st1) := readStates env hs st
    nowLoop env hs fuel states st1

/-- A full `run_select(handles, Timeout::Now)` invocation: empty check,
shuffle, fresh token, then the non-blocking path. -/
def runSelectNow (env : PeerEnv) (shuffle : List Entry → List Entry)
    (fuel : Nat) (hs0 : List Entry) (st : St) : RunRes × St :=
  match hs0 with
  | [] => (RunRes.nothingReady, st)
  | _ :: _ => nowPath env (shuffle hs0) fuel { st with tok := 0 }

/-- The registration loop of the blocking path.  `registered_count` is
incremented before each `register` call; a `register` that reports readiness
triggers `cx.try_select(Selected::Aborted)` and stops registration; a
non-`Waiting` slot observed after a `register` that returned false also
stops registration. -/
def regLoop (env : PeerEnv) : List Entry → Nat → Nat → St →
    Selected × Nat × Option Nat × St
  | [], _p, cnt, st => (Selected.waiting, cnt, none, st)
  | e :: rest, p, cnt, st =>
    let ready := env.ans st.k
    let st1 := (st.push (Ev.regEv (env.opAddr p) ready)).bump env
    if ready then
      match ctxTrySelect st1 Selected.aborted with
      | ((true, _), st2) =>
        (Selected.aborted, cnt + 1, some e.idx, st2.push (Ev.casEv true))
      | ((false, s), st2) =>
        (s, cnt + 1, none, st2.push (Ev.casEv false))
    else
      if st1.slot ≠ Selected.waiting then (st1.slot, cnt + 1, none, st1)
      else regLoop env rest (p + 1) (cnt + 1) st1

/-- Combine the caller deadline with each handle's flavor deadline, keeping
the earliest (`deadline.map(|y| x.min(y)).or(Some(x))`). -/
def foldDeadlines (env : PeerEnv) : List Entry → Option Instant → St →
    Option Instant × St
  | [], dl, st => (dl, st)
  | _e :: rest, dl, st =>
    let x := env.deadlineAns st.k
    let st1 := (st.push (Ev.deadlineEv x)).bump env
    let dl1 :=
      match x, dl with
      | none, d => d
      | some x, none => some x
      | some x, some y => some (min x y)
    foldDeadlines env rest dl1 st1

/-- Unregister the prefix of operations that were registered
(`handles.iter_mut().take(registered_count)`). -/
def unregLoop (env : PeerEnv) : List Entry → Nat → St → St
  | [], _p, st => st
  | _e :: rest, p, st =>
    let st1 := (st.push (Ev.unregEv (env.opAddr p))).bump env
    unregLoop env rest (p + 1) st1

/-- After an abort with a recorded ready index: try selecting only that
entry (`if i == index_ready && handle.try_select(&mut token)`). -/
def abortedScan (env : PeerEnv) (ir : Nat) : List Entry → St →
    Option (Nat × Nat) × St
  | [], st => (none, st)
  | e :: rest, st =>
    if e.idx = ir then
      let ok := env.ans st.k
      let tokv := env.tokAns st.k
      let st1 := (st.push (Ev.trySelEv e.idx e.ptr ok)).bump env
      if ok then (some (e.idx, e.ptr), { st1 with tok := tokv })
      else abortedScan env ir rest st1
    else abortedScan env ir rest st

/-- After a wakeup for an operation: find the entry whose identifier
matches the selected operation and ask it to `accept`. -/
def acceptScan (env : PeerEnv) (sel : Selected) : List Entry → Nat → St →
    Option (Nat × Nat) × St
  | [], _p, st => (none, st)
  | e :: rest, p, st =>
    if sel = Selected.operation (Operation.ofAddr (env.opAddr p)) then
      let ok := env.ans st.k
      let tokv := env.tokAns st.k
      let st1 := (st.push (Ev.acceptEv (env.opAddr p) ok)).bump env
      if ok then (some (e.idx, e.ptr), { st1 with tok := tokv })
      else acceptScan env sel rest (p + 1) st1
    else acceptScan env sel rest (p + 1) st

/-- Outcome of one `Context::with` closure. -/
inductive BB (α : Type)
  | ret (r : Option α)
  | diverge
  | unreach
deriving DecidableEq, Repr

/-- Outcome of one execution of the blocking body, with the internal
`sel`, `registered_count` and `index_ready` values exposed. -/
structure BBOut where
  res : BB (Nat × Nat)
  sel : Selected
  cnt : Nat
  idxReady : Option Nat
  st : St

/-- Unregister and resolve the observed selection state (the tail of the
`Context::with` closure in `run_select`). -/
def resolve (env : PeerEnv) (hs : List Entry) (sel : Selected) (cnt : Nat)
    (idxReady : Option Nat) (st : St) : BBOut :=
  let st1 := unregLoop env (hs.take cnt) 0 st
  match sel with
  | Selected.waiting => ⟨BB.unreach, sel, cnt, idxReady, st1⟩
  | Selected.aborted =>
    match idxReady with
    | some ir =>
      let (r, st2) := abortedScan env ir hs st1
      ⟨BB.ret r, sel, cnt, idxReady, st2⟩
    | none => ⟨BB.ret none, sel, cnt, idxReady, st1⟩
  | Selected.disconnected => ⟨BB.ret none, sel, cnt, idxReady, st1⟩
  | Selected.operation _ =>
    let (r, st2) := acceptScan env sel hs 0 st1
    ⟨BB.ret r, sel, cnt, idxReady, st2⟩

/-- The caller-imposed deadline of a timeout.  The `Timeout::Now` arm is
unreachable in the drivers because the blocking bodies are only entered for
`Never` and `At`. -/
def timeoutDeadline : Timeout → Option Instant
  | Timeout.now => none
  | Timeout.never => none
  | Timeout.At t => some t

/-- One execution of the `Context::with` closure in the blocking path of
`run_select`: reset the slot, register, possibly wait, unregister,
resolve. -/
def blockingBody (env : PeerEnv) (hs : List Entry) (timeout : Timeout)
    (st : St) : BBOut :=
  match regLoop env hs 0 0 { st with slot := Selected.waiting } with
  | (selR, cnt, idxReady, st1) =>
    if selR = Selected.waiting then
      match foldDeadlines env hs (timeoutDeadline timeout) st1 with
      | (dl, st2) =>
        match ctxWaitUntil env dl st2 with
        | (none, st3) => ⟨BB.diverge, Selected.waiting, cnt, idxReady, st3⟩
        | (some selW, st3) => resolve env hs selW cnt idxReady st3
    else resolve env hs selR cnt idxReady st1

/-- The outer loop of `run_select`'s blocking path: try, block, resolve,
check the deadline; at the deadline fall back to one final non-blocking
`run_select(handles, Timeout::Now)`. -/
def outerLoop (env : PeerEnv) (shuffle : List Entry → List Entry)
    (hs : List Entry) (timeout : Timeout) : Nat → St → RunRes × St
  | 0, st => (RunRes.outOfFuel, st)
  | fuel + 1, st =>
    match tryPass env hs st with
    | (some (i, p), st1) => (RunRes.found st1.tok i p, st1)
    | (none, st1) =>
      let o := blockingBody env hs timeout st1
      match o.res with
      | BB.diverge => (RunRes.diverge, o.st)
      | BB.unreach => (RunRes.unreach, o.st)
      | BB.ret (some (i, p)) => (RunRes.found o.st.tok i p, o.st)
      | BB.ret none =>
        match timeout with
        | Timeout.now => (RunRes.unreach, o.st)
        | Timeout.never => outerLoop env shuffle hs timeout fuel o.st
        | Timeout.At t =>
          let nowv := env.nowAns o.st.k
          let st2 := (o.st.push (Ev.nowEv nowv)).bump env
          if t ≤ nowv then runSelectNow env shuffle fuel hs st2
          else outerLoop env shuffle hs timeout fuel st2

/-- `run_select` (select.rs): empty-list sleep, shuffle, then the
non-blocking or the blocking path. -/
def runSelect (env : PeerEnv) (shuffle : List Entry → List Entry)
    (fuel : Nat) (hs0 : List Entry) (timeout : Timeout) : RunRes × St :=
  match hs0 with
  | [] =>
    match timeout with
    | Timeout.now => (RunRes.nothingReady, St.init)
    | Timeout.never => (RunRes.diverge, St.init.push (Ev.sleepEv none))
    | Timeout.At t => (RunRes.nothingReady, St.init.push (Ev.sleepEv (some t)))
  | _ :: _ =>
    match timeout with
    | Timeout.now => nowPath env (shuffle hs0) fuel St.init
    | _ => outerLoop env shuffle (shuffle hs0) timeout fuel St.init

/-- Result of one `run_ready` invocation. -/
inductive ReadyRes
  | found (idx : Nat)
  | nothingReady
  | diverge
  | outOfFuel
  | unreach
deriving DecidableEq, Repr

/-- One pass of `for &(handle, i, _) in handles.iter()` probing
`handle.is_ready()`. -/
def readyPass (env : PeerEnv) : List Entry → St → Option Nat × St
  | [], st => (none, st)
  | e :: rest, st =>
    let ok := env.ans st.k
    let st1 := (st.push (Ev.readyEv e.idx ok)).bump env
    if ok then (some e.idx, st1) else readyPass env rest st1

/-- The spinning loop of `run_ready`: probe readiness, then
`Backoff::snooze` until it reports exhaustion (the oracle decides when
snooze returns false; `utils::Backoff` itself is outside the embedded
sources). -/
def backoffLoop (env : PeerEnv) (hs : List Entry) : Nat → St →
    Option (Option Nat) × St
  | 0, st => (none, st)
  | fuel + 1, st =>
    match readyPass env hs st with
    | (some i, st1) => (some (some i), st1)
    | (none, st1) =>
      let again := env.ans st1.k
      let st2 := (st1.push (Ev.snoozeEv again)).bump env
      if again then backoffLoop env hs fuel st2
      else (some none, st2)

/-- The watch loop of `run_ready`'s blocking body: like registration, but a
`watch` that reports readiness CASes the slot to `Operation(oper)`. -/
def watchLoop (env : PeerEnv) : List Entry → Nat → Nat → St →
    Selected × Nat × St
  | [], _p, cnt, st => (Selected.waiting, cnt, st)
  | _e :: rest, p, cnt, st =>
    let ready := env.ans st.k
    let oper := Operation.ofAddr (env.opAddr p)
    let st1 := (st.push (Ev.watchEv (env.opAddr p) ready)).bump env
    if ready then
      match ctxTrySelect st1 (Selected.operation oper) with
      | ((true, _), st2) =>
        (Selected.operation oper, cnt + 1, st2.push (Ev.casEv true))
      | ((false, s), st2) => (s, cnt + 1, st2.push (Ev.casEv false))
    else
      if st1.slot ≠ Selected.waiting then (st1.slot, cnt + 1, st1)
      else watchLoop env rest (p + 1) (cnt + 1) st1

/-- Unwatch the prefix of watched operations. -/
def unwatchLoop (env : PeerEnv) : List Entry → Nat → St → St
  | [], _p, st => st
  | _e :: rest, p, st =>
    let st1 := (st.push (Ev.unwatchEv (env.opAddr p))).bump env
    unwatchLoop env rest (p + 1) st1

/-- Find the entry whose operation identifier equals the selected one and
report its index (no `accept` in `run_ready`). -/
def readyScan (env : PeerEnv) (sel : Selected) : List Entry → Nat →
    Option Nat
  | [], _p => none
  | e :: rest, p =>
    if sel = Selected.operation (Operation.ofAddr (env.opAddr p)) then
      some e.idx
    else readyScan env sel rest (p + 1)

/-- One execution of the `Context::with` closure in `run_ready`. -/
def readyBody (env : PeerEnv) (hs : List Entry) (timeout : Timeout)
    (st : St) : BB Nat × St :=
  match watchLoop env hs 0 0 { st with slot := Selected.waiting } with
  | (selW, cnt, st1) =>
    if selW = Selected.waiting then
      match foldDeadlines env hs (timeoutDeadline timeout) st1 with
      | (dl, st2) =>
        match ctxWaitUntil env dl st2 with
        | (none, st3) => (BB.diverge, st3)
        | (some sel, st3) =>
          let st4 := unwatchLoop env (hs.take cnt) 0 st3
          match sel with
          | Selected.waiting => (BB.unreach, st4)
          | Selected.aborted => (BB.ret none, st4)
          | Selected.disconnected => (BB.ret none, st4)
          | Selected.operation _ => (BB.ret (readyScan env sel hs 0), st4)
    else
      let st4 := unwatchLoop env (hs.take cnt) 0 st1
      match selW with
      | Selected.waiting => (BB.unreach, st4)
      | Selected.aborted => (BB.ret none, st4)
      | Selected.disconnected => (BB.ret none, st4)
      | Selected.operation _ => (BB.ret (readyScan env selW hs 0), st4)

/-- The outer loop of `run_ready`: spin with backoff, check the deadline,
then watch-and-park. -/
def readyOuter (env : PeerEnv) (hs : List Entry) (timeout : Timeout) :
    Nat → St → ReadyRes × St
  | 0, st => (ReadyRes.outOfFuel, st)
  | fuel + 1, st =>
    match backoffLoop env hs (fuel + 1) st with
    | (none, st1) => (ReadyRes.outOfFuel, st1)
    | (some (some i), st1) => (ReadyRes.found i, st1)
    | (some none, st1) =>
      let timedOut : Bool × St :=
        match timeout with
        | Timeout.now => (true, st1)
        | Timeout.never => (false, st1)
        | Timeout.At t =>
          let nowv := env.nowAns st1.k
          let st2 := (st1.push (Ev.nowEv nowv)).bump env
          (decide (t ≤ nowv), st2)
      match timedOut with
      | (true, st2) => (ReadyRes.nothingReady, st2)
      | (false, st2) =>
        match readyBody env hs timeout st2 with
        | (BB.diverge, st3) => (ReadyRes.diverge, st3)
        | (BB.unreach, st3) => (ReadyRes.unreach, st3)
        | (BB.ret (some i), st3) => (ReadyRes.found i, st3)
        | (BB.ret none, st3) => readyOuter env hs timeout fuel st3

/-- `run_ready` (select.rs): empty-list sleep, shuffle, then the
spin/watch/park loop. -/
def runReady (env : PeerEnv) (shuffle : List Entry → List Entry)
    (fuel : Nat) (hs0 : List Entry) (timeout : Timeout) : ReadyRes × St :=
  match hs0 with
  | [] =>
    match timeout with
    | Timeout.now => (ReadyRes.nothingReady, St.init)
    | Timeout.never => (ReadyRes.diverge, St.init.push (Ev.sleepEv none))
    | Timeout.At t =>
      (ReadyRes.nothingReady, St.init.push (Ev.sleepEv (some t)))
  | _ :: _ => readyOuter env (shuffle hs0) timeout fuel St.init

/-- `Select`: the accumulated list of `(handle, index, endpoint address)`
tuples. -/
structure Select where
  handles : List Entry
deriving DecidableEq, Repr

/-- `Select::new`. -/
def Select.new : Select := ⟨[]⟩

/-- `Select::send`: push `(s, self.handles.len(), s as *const u8)` and
return the pre-push length. -/
def Select.send (sel : Select) (s : Nat) : Nat × Select :=
  let i := sel.handles.length
  (i, ⟨sel.handles ++ [⟨i, s⟩]⟩)

/-- `Select::recv`: push `(r, self.handles.len(), r as *const u8)` and
return the pre-push length. -/
def Select.recv (sel : Select) (r : Nat) : Nat × Select :=
  let i := sel.handles.length
  (i, ⟨sel.handles ++ [⟨i, r⟩]⟩)

/-- A send or receive operation to add to a `Select`, carrying the endpoint
address. -/
inductive AddOp
  | snd (a : Nat)
  | rcv (a : Nat)
deriving DecidableEq, Repr

/-- The endpoint address of an `AddOp`. -/
def AddOp.addr : AddOp → Nat
  | AddOp.snd a => a
  | AddOp.rcv a => a

/-- Add a mixed sequence of send and receive operations. -/
def Select.addAll (sel : Select) : List AddOp → Select
  | [] => sel
  | AddOp.snd a :: rest => Select.addAll (Select.send sel a).2 rest
  | AddOp.rcv a :: rest => Select.addAll (Select.recv sel a).2 rest

/-- `TrySelectError`. -/
inductive TrySelectError
  | mk
deriving DecidableEq, Repr

/-- `TryReadyError`. -/
inductive TryReadyError
  | mk
deriving DecidableEq, Repr

/-- `SelectedOperation`: token, caller index and endpoint address of the
selected operation. -/
structure SelectedOperation where
  token : Nat
  index : Nat
  ptr : Nat
deriving DecidableEq, Repr

/-- Outcome of a public API call; Rust panics are `panicked`, and
executions the bounded embedding cannot finish (parking forever, fuel
exhaustion) are `noVerdict`. -/
inductive ApiRes (α : Type)
  | ok (a : α)
  | panicked
  | noVerdict
deriving DecidableEq, Repr

/-- `Select::try_select`. -/
def Select.try_select (env : PeerEnv) (shuffle : List Entry → List Entry)
    (fuel : Nat) (sel : Select) :
    ApiRes (Except TrySelectError SelectedOperation) :=
  match runSelect env shuffle fuel sel.handles Timeout.now with
  | (RunRes.nothingReady, _) => ApiRes.ok (Except.error TrySelectError.mk)
  | (RunRes.found tok i p, _) => ApiRes.ok (Except.ok ⟨tok, i, p⟩)
  | _ => ApiRes.noVerdict

/-- `Select::select`: panic on an empty list, then a `Timeout::Never` run
whose `None` is unwrapped (a panic). -/
def Select.select (env : PeerEnv) (shuffle : List Entry → List Entry)
    (fuel : Nat) (sel : Select) : ApiRes SelectedOperation :=
  if sel.handles = [] then ApiRes.panicked
  else
    match runSelect env shuffle fuel sel.handles Timeout.never with
    | (RunRes.found tok i p, _) => ApiRes.ok ⟨tok, i, p⟩
    | (RunRes.nothingReady, _) => ApiRes.panicked
    | _ => ApiRes.noVerdict

/-- `Select::try_ready`. -/
def Select.try_ready (env : PeerEnv) (shuffle : List Entry → List Entry)
    (fuel : Nat) (sel : Select) : ApiRes (Except TryReadyError Nat) :=
  match runReady env shuffle fuel sel.handles Timeout.now with
  | (ReadyRes.nothingReady, _) => ApiRes.ok (Except.error TryReadyError.mk)
  | (ReadyRes.found i, _) => ApiRes.ok (Except.ok i)
  | _ => ApiRes.noVerdict

/-- `Select::ready`: panic on an empty list, then a `Timeout::Never` run
whose `None` is unwrapped (a panic). -/
def Select.ready (env : PeerEnv) (shuffle : List Entry → List Entry)
    (fuel : Nat) (sel : Select) : ApiRes Nat :=
  if sel.handles = [] then ApiRes.panicked
  else
    match runReady env shuffle fuel sel.handles Timeout.never with
    | (ReadyRes.found i, _) => ApiRes.ok i
    | (ReadyRes.nothingReady, _) => ApiRes.panicked
    | _ => ApiRes.noVerdict

/-- Effects performed while completing (or dropping) a
`SelectedOperation`. -/
inductive Eff
  | addrCheck (passed : Bool)
  | writeCall (tok : Nat)
  | readCall (tok : Nat)
  | forgetCall
  | dropPanicked
deriving DecidableEq, Repr

/-- `SelectedOperation::send`: assert that the passed sender address equals
the stored endpoint address (a failed assertion panics, yielding no
result), then call `channel::write` with the token and suppress the
destructor via `mem::forget`.  `channel::write` itself is outside the
embedded sources; its success is the parameter `wres` and the effect trace
records the single call. -/
def SelectedOperation.send (oper : SelectedOperation) (sAddr : Nat)
    (wres : Bool) : List Eff × Option (Except Unit Unit) :=
  if sAddr = oper.ptr then
    ([Eff.addrCheck true, Eff.writeCall oper.token, Eff.forgetCall],
      some (if wres then Except.ok () else Except.error ()))
  else ([Eff.addrCheck false], none)

/-- `SelectedOperation::recv`: assert that the passed receiver address
equals the stored endpoint address, then call `channel::read` with the
token and suppress the destructor. -/
def SelectedOperation.recv (oper : SelectedOperation) (rAddr : Nat)
    (rres : Bool) : List Eff × Option (Except Unit Unit) :=
  if rAddr = oper.ptr then
    ([Eff.addrCheck true, Eff.readCall oper.token, Eff.forgetCall],
      some (if rres then Except.ok () else Except.error ()))
  else ([Eff.addrCheck false], none)

/-- `impl Drop for SelectedOperation`: dropping without completing
panics. -/
def SelectedOperation.dropRun (_oper : SelectedOperation) : List Eff :=
  [Eff.dropPanicked]

/-- Number of register events recorded for the operation identifier
`op`. -/
def regCount (op : Nat) (tr : List Ev) : Nat :=
  tr.countP fun ev =>
    match ev with
    | Ev.regEv o _ => o == op
    | _ => false

/-- Number of register events for `op` that returned false. -/
def regFalseCount (op : Nat) (tr : List Ev) : Nat :=
  tr.countP fun ev =>
    match ev with
    | Ev.regEv o ready => o == op && !ready
    | _ => false

/-- Number of unregister events recorded for `op`. -/
def unregCount (op : Nat) (tr : List Ev) : Nat :=
  tr.countP fun ev =>
    match ev with
    | Ev.unregEv o => o == op
    | _ => false

/-- Operation identifiers of the register events of a trace, in order. -/
def regOps (tr : List Ev) : List Nat :=
  tr.filterMap fun ev =>
    match ev with
    | Ev.regEv o _ => some o
    | _ => none

/-- Operation identifiers of the unregister events of a trace, in
order. -/
def unregOps (tr : List Ev) : List Nat :=
  tr.filterMap fun ev =>
    match ev with
    | Ev.unregEv o => some o
    | _ => none

/-- The operation identifiers of `n` consecutive handle-list slots
starting at position `p`. -/
def opsSeg (env : PeerEnv) (p n : Nat) : List Nat :=
  (List.range n).map fun m => env.opAddr (p + m)

/-- Is this event a `try_select` probe? -/
def Ev.isTrySel : Ev → Bool
  | Ev.trySelEv _ _ _ => true
  | _ => false

/-- Is this event a `state()` read? -/
def Ev.isState : Ev → Bool
  | Ev.stateEv _ => true
  | _ => false

/-- Is this event a register or unregister call? -/
def Ev.isRegU : Ev → Bool
  | Ev.regEv _ _ => true
  | Ev.unregEv _ => true
  | _ => false

/-- The trace of a full failing `try_select` pass over the handle list. -/
def failPass (hs : List Entry) : List Ev :=
  hs.map fun e => Ev.trySelEv e.idx e.ptr false

/-- The trace of one snapshot (or re-read) of all channel states. -/
def stateEvs (vs : List Nat) : List Ev :=
  vs.map Ev.stateEv

/-- Is this effect a `channel::write` call? -/
def Eff.isWrite : Eff → Bool
  | Eff.writeCall _ => true
  | _ => false

/-- Is this effect a `channel::read` call? -/
def Eff.isRead : Eff → Bool
  | Eff.readCall _ => true
  | _ => false

/-- The handle list that `Select.addAll` builds when the list before it
holds `n` entries. -/
def expectedHandles (n : Nat) : List AddOp → List Entry
  | [] => []
  | op :: rest => ⟨n, op.addr⟩ :: expectedHandles (n + 1) rest

/-- A concrete environment for witnesses and counterexamples: the boolean
answers of the first ticks are listed, every other oracle answer is
trivial, no peer ever interferes, and slot `p` of the handle list lives at
address `p + 10`. -/
def mkEnv (bs : List Bool) : PeerEnv where
  ans := fun k => bs.getD k false
  stateAns := fun _ => 0
  deadlineAns := fun _ => none
  tokAns := fun _ => 0
  nowAns := fun _ => 0
  peerAt := fun _ => none
  opAddr := fun p => p + 10

/-! ### Lemmas and claim theorems -/

/-- Splitting `regOps` over an append. -/
lemma regOps_append (a b : List Ev) : regOps (a ++ b) = regOps a ++ regOps b :=
  List.filterMap_append a b _

/-- Splitting `unregOps` over an append. -/
lemma unregOps_append (a b : List Ev) :
    unregOps (a ++ b) = unregOps a ++ unregOps b :=
  List.filterMap_append a b _

/-- Traces without register/unregister events contribute nothing to
`regOps` and `unregOps`. -/
lemma regOps_nil_of {tr : List Ev} (h : ∀ ev ∈ tr, ev.isRegU = false) :
    regOps tr = [] ∧ unregOps tr = [] := by
  induction tr with
  | nil => exact ⟨rfl, rfl⟩
  | cons ev rest ih =>
    have hev := h ev (List.mem_cons_self _ _)
    have hrest := ih fun e he => h e (List.mem_cons_of_mem _ he)
    cases ev <;> simp [Ev.isRegU] at hev <;>
      simpa [regOps, unregOps, List.filterMap_cons] using hrest

/-- The first slot of a segment of operation identifiers. -/
lemma opsSeg_succ (env : PeerEnv) (p n : Nat) :
    opsSeg env p (n + 1) = env.opAddr p :: opsSeg env (p + 1) n := by
  simp only [opsSeg, List.range_succ_eq_map, List.map_cons, List.map_map]
  congr 1
  simp only [List.map_inj_left, Function.comp_apply]
  intro a _
  congr 1
  omega

/-- `unregOps` of a pure unregister trace. -/
lemma unregOps_map (xs : List Nat) :
    unregOps (xs.map Ev.unregEv) = xs ∧ regOps (xs.map Ev.unregEv) = [] := by
  induction xs with
  | nil => exact ⟨rfl, rfl⟩
  | cons x rest ih =>
    simpa [unregOps, regOps, List.filterMap_cons] using ih

/-- Characterization of one `try_select` pass: on failure every entry was
probed once (all failing); on success a prefix failed and the returned
index/pointer are those of the first succeeding entry. -/
lemma tryPass_spec (env : PeerEnv) :
    ∀ (l : List Entry) (st : St) (r : Option (Nat × Nat)) (st' : St),
      tryPass env l st = (r, st') →
      (r = none → st'.trace = st.trace ++ failPass l) ∧
      (∀ i p, r = some (i, p) → ∃ l1 e l2, l = l1 ++ e :: l2 ∧ i = e.idx ∧
        p = e.ptr ∧ st'.trace = st.trace ++ failPass l1 ++
          [Ev.trySelEv e.idx e.ptr true]) := by
  intro l
  induction l with
  | nil =>
    intro st r st' h
    simp only [tryPass] at h
    cases h
    constructor
    · intro _; simp [failPass]
    · intro i p hip; simp at hip
  | cons e rest ih =>
    intro st r st' h
    simp only [tryPass] at h
    by_cases hok : env.ans st.k
    · rw [if_pos (by simp [hok])] at h
      cases h
      constructor
      · intro hnone; simp at hnone
      · intro i p hip
        simp only [Option.some.injEq, Prod.mk.injEq] at hip
        refine ⟨[], e, rest, by simp, hip.1.symm, hip.2.symm, ?_⟩
        simp [St.push, St.bump, failPass, hok]
    · have hb : env.ans st.k = false := by
        cases hba : env.ans st.k
        · rfl
        · exact absurd hba hok
      rw [if_neg (by simp [hb])] at h
      have hrec := ih _ _ _ h
      constructor
      · intro hnone
        have := hrec.1 hnone
        rw [this]
        simp [St.push, St.bump, failPass, hb, List.append_assoc]
      · intro i p hip
        obtain ⟨l1, e1, l2, hl, hi, hp, htr⟩ := hrec.2 i p hip
        refine ⟨e :: l1, e1, l2, by simp [hl], hi, hp, ?_⟩
        rw [htr]
        simp [St.push, St.bump, failPass, hb, List.append_assoc]

/-- Snapshotting states records exactly the returned values. -/
lemma readStates_spec (env : PeerEnv) :
    ∀ (l : List Entry) (st : St) (vs : List Nat) (st' : St),
      readStates env l st = (vs, st') →
      vs.length = l.length ∧ st'.trace = st.trace ++ stateEvs vs := by
  intro l
  induction l with
  | nil =>
    intro st vs st' h
    simp only [readStates] at h
    cases h
    exact ⟨rfl, by simp [stateEvs]⟩
  | cons e rest ih =>
    intro st vs st' h
    simp only [readStates] at h
    cases hrec : readStates env rest ((st.push (Ev.stateEv (env.stateAns st.k))).bump env) with
    | mk vs0 st2 =>
      rw [hrec] at h
      cases h
      obtain ⟨hlen, htr⟩ := ih _ _ _ hrec
      refine ⟨by simp [hlen], ?_⟩
      rw [htr]
      simp [St.push, St.bump, stateEvs]

/-- Re-reading states records exactly the new snapshot values, preserves
the snapshot length, and reports no change exactly when the new snapshot
equals the old one. -/
lemma stateCheck_spec (env : PeerEnv) :
    ∀ (l : List Entry) (states : List Nat) (st : St) (vs : List Nat)
      (ch : Bool) (st' : St),
      states.length = l.length →
      stateCheck env l states st = (vs, ch, st') →
      vs.length = l.length ∧ st'.trace = st.trace ++ stateEvs vs ∧
        (ch = false ↔ vs = states) := by
  intro l
  induction l with
  | nil =>
    intro states st vs ch st' hlen h
    match states, hlen with
    | [], _ =>
      simp only [stateCheck] at h
      cases h
      exact ⟨rfl, by simp [stateEvs], by simp⟩
  | cons e rest ih =>
    intro states st vs ch st' hlen h
    match states, hlen with
    | old :: olds, hlen =>
      simp only [stateCheck] at h
      cases hrec : stateCheck env rest olds
          ((st.push (Ev.stateEv (env.stateAns st.k))).bump env) with
      | mk vs0 rest2 =>
        match rest2, hrec with
        | (ch0, st2), hrec =>
          rw [hrec] at h
          cases h
          obtain ⟨hl, htr, hch⟩ := ih olds _ _ _ _ (by simpa using hlen) hrec
          refine ⟨by simp [hl], ?_, ?_⟩
          · rw [htr]; simp [St.push, St.bump, stateEvs]
          · rw [Bool.or_eq_false_iff, hch, bne_eq_false_iff_eq]
            constructor
            · intro hp; rw [hp.1, hp.2]
            · intro hp
              obtain ⟨h1, h2⟩ := List.cons.injEq .. ▸ hp
              exact ⟨h1.symm, h2⟩

/-- `wait_until` records exactly one park event. -/
lemma ctxWaitUntil_trace (env : PeerEnv) (dl : Option Instant) (st : St) :
    ((ctxWaitUntil env dl st).2).trace = st.trace ++ [Ev.waitEv] := by
  unfold ctxWaitUntil
  by_cases h : peerCas (env.peerAt st.k) st.slot = Selected.waiting <;>
    cases dl <;> simp [St.push, St.bump, h]

/-- The deadline fold records only deadline reads. -/
lemma foldDeadlines_trace (env : PeerEnv) :
    ∀ (l : List Entry) (dl : Option Instant) (st : St),
      ∃ tr, ((foldDeadlines env l dl st).2).trace = st.trace ++ tr ∧
        ∀ ev ∈ tr, ∃ d, ev = Ev.deadlineEv d := by
  intro l
  induction l with
  | nil =>
    intro dl st
    exact ⟨[], by simp [foldDeadlines], by simp⟩
  | cons e rest ih =>
    intro dl st
    simp only [foldDeadlines]
    obtain ⟨tr, htr, hall⟩ := ih _ ((st.push (Ev.deadlineEv (env.deadlineAns st.k))).bump env)
    refine ⟨Ev.deadlineEv (env.deadlineAns st.k) :: tr, ?_, ?_⟩
    · rw [htr]; simp [St.push, St.bump]
    · intro ev hev
      rcases List.mem_cons.mp hev with h | h
      · exact ⟨_, h⟩
      · exact hall ev h

/-- Unregistration records exactly one unregister event per registered
slot, in position order. -/
lemma unregLoop_spec (env : PeerEnv) :
    ∀ (l : List Entry) (p : Nat) (st : St),
      (unregLoop env l p st).trace =
        st.trace ++ (opsSeg env p l.length).map Ev.unregEv := by
  intro l
  induction l with
  | nil => intro p st; simp [unregLoop, opsSeg]
  | cons e rest ih =>
    intro p st
    simp only [unregLoop]
    rw [ih]
    simp [St.push, St.bump, List.length_cons, opsSeg_succ]

/-- Registration processes a prefix of the remaining entries, recording one
register event per processed slot (plus possibly one CAS event) and no
unregister events. -/
lemma regLoop_spec (env : PeerEnv) :
    ∀ (l : List Entry) (p cnt : Nat) (st : St) (sel' : Selected)
      (cnt' : Nat) (ir : Option Nat) (st' : St),
      regLoop env l p cnt st = (sel', cnt', ir, st') →
      ∃ n tr, n ≤ l.length ∧ cnt' = cnt + n ∧
        st'.trace = st.trace ++ tr ∧ regOps tr = opsSeg env p n ∧
        unregOps tr = [] := by
  intro l
  induction l with
  | nil =>
    intro p cnt st sel' cnt' ir st' h
    simp only [regLoop] at h
    cases h
    exact ⟨0, [], by simp, by simp, by simp, by simp [regOps, opsSeg], by
      simp [unregOps]⟩
  | cons e rest ih =>
    intro p cnt st sel' cnt' ir st' h
    simp only [regLoop] at h
    by_cases hr : env.ans st.k
    · rw [if_pos (by simp [hr])] at h
      by_cases hslot :
          ((st.push (Ev.regEv (env.opAddr p) (env.ans st.k))).bump env).slot =
            Selected.waiting
      · rw [ctxTrySelect, if_pos hslot] at h
        cases h
        refine ⟨1, [Ev.regEv (env.opAddr p) (env.ans st.k), Ev.casEv true],
          by simp, by simp, ?_, ?_, ?_⟩
        · simp [St.push, St.bump]
        · simp [regOps, List.filterMap_cons, opsSeg, List.range_succ]
        · simp [unregOps, List.filterMap_cons]
      · rw [ctxTrySelect, if_neg hslot] at h
        cases h
        refine ⟨1, [Ev.regEv (env.opAddr p) (env.ans st.k), Ev.casEv false],
          by simp, by simp, ?_, ?_, ?_⟩
        · simp [St.push, St.bump]
        · simp [regOps, List.filterMap_cons, opsSeg, List.range_succ]
        · simp [unregOps, List.filterMap_cons]
    · have hb : env.ans st.k = false := by
        cases hba : env.ans st.k
        · rfl
        · exact absurd hba hr
      rw [if_neg (by simp [hb])] at h
      by_cases hslot :
          ((st.push (Ev.regEv (env.opAddr p) (env.ans st.k))).bump env).slot ≠
            Selected.waiting
      · rw [if_pos hslot] at h
        cases h
        refine ⟨1, [Ev.regEv (env.opAddr p) (env.ans st.k)],
          by simp, by simp, ?_, ?_, ?_⟩
        · simp [St.push, St.bump]
        · simp [regOps, List.filterMap_cons, opsSeg, List.range_succ]
        · simp [unregOps, List.filterMap_cons]
      · rw [if_neg hslot] at h
        obtain ⟨n, tr, hn, hcnt, htr, hro, huo⟩ := ih _ _ _ _ _ _ _ h
        refine ⟨n + 1, Ev.regEv (env.opAddr p) (env.ans st.k) :: tr,
          by simp [Nat.succ_le_succ hn], by omega, ?_, ?_, ?_⟩
        · rw [htr]; simp [St.push, St.bump]
        · rw [opsSeg_succ]
          simp only [regOps, List.filterMap_cons] at hro ⊢
          rw [hro]
        · simpa [unregOps, List.filterMap_cons] using huo

/-- Shifting a segment of failing register events by one position. -/
lemma regFalseSeg_succ (env : PeerEnv) (p j : Nat) :
    ((List.range (j + 1)).map fun m => Ev.regEv (env.opAddr (p + m)) false) =
      Ev.regEv (env.opAddr p) false ::
        ((List.range j).map fun m => Ev.regEv (env.opAddr (p + 1 + m)) false) := by
  simp only [List.range_succ_eq_map, List.map_cons, List.map_map]
  congr 1
  simp only [List.map_inj_left, Function.comp_apply]
  intro a _
  have hpa : p + (a + 1) = p + 1 + a := by omega
  rw [hpa]

/-- When registration ends with a recorded ready index, a `register`
reported readiness, the CAS to `Aborted` succeeded, the readied entry's
index was recorded, and registration stopped: the new trace is a block of
failing registers followed by the ready register and the winning CAS. -/
lemma regLoop_ready_spec (env : PeerEnv) :
    ∀ (l : List Entry) (p cnt : Nat) (st : St) (sel' : Selected)
      (cnt' : Nat) (ir : Nat) (st' : St),
      regLoop env l p cnt st = (sel', cnt', some ir, st') →
      sel' = Selected.aborted ∧ st'.slot = Selected.aborted ∧
      ∃ j e, l.get? j = some e ∧ ir = e.idx ∧ cnt' = cnt + j + 1 ∧
        st'.trace = st.trace ++
          (((List.range j).map fun m => Ev.regEv (env.opAddr (p + m)) false) ++
            [Ev.regEv (env.opAddr (p + j)) true, Ev.casEv true]) := by
  intro l
  induction l with
  | nil =>
    intro p cnt st sel' cnt' ir st' h
    simp only [regLoop] at h
    simp at h
  | cons e rest ih =>
    intro p cnt st sel' cnt' ir st' h
    simp only [regLoop] at h
    by_cases hr : env.ans st.k
    · rw [if_pos (by simp [hr])] at h
      by_cases hslot :
          ((st.push (Ev.regEv (env.opAddr p) (env.ans st.k))).bump env).slot =
            Selected.waiting
      · rw [ctxTrySelect, if_pos hslot] at h
        cases h
        refine ⟨rfl, by simp [St.push], 0, e, rfl, rfl, by omega, ?_⟩
        simp [St.push, St.bump, hr]
      · rw [ctxTrySelect, if_neg hslot] at h
        simp at h
    · have hb : env.ans st.k = false := by
        cases hba : env.ans st.k
        · rfl
        · exact absurd hba hr
      rw [if_neg (by simp [hb])] at h
      by_cases hslot :
          ((st.push (Ev.regEv (env.opAddr p) (env.ans st.k))).bump env).slot ≠
            Selected.waiting
      · rw [if_pos hslot] at h
        simp at h
      · rw [if_neg hslot] at h
        obtain ⟨hsel, hslot2, j, e1, hget, hir, hcnt, htr⟩ := ih _ _ _ _ _ _ _ h
        refine ⟨hsel, hslot2, j + 1, e1, by simpa using hget, hir, by omega, ?_⟩
        rw [htr]
        simp only [St.push, St.bump, hb]
        rw [regFalseSeg_succ]
        have hpj : p + (j + 1) = p + 1 + j := by omega
        rw [hpj]
        simp

/-- The aborted-with-ready-index scan probes only entries carrying the
ready index, and on success returns that index together with the probed
entry's pointer. -/
lemma abortedScan_spec (env : PeerEnv) (ir : Nat) :
    ∀ (l : List Entry) (st : St) (r : Option (Nat × Nat)) (st' : St),
      abortedScan env ir l st = (r, st') →
      (∃ tr, st'.trace = st.trace ++ tr ∧
        ∀ ev ∈ tr, ∃ b e, e ∈ l ∧ e.idx = ir ∧ ev = Ev.trySelEv ir e.ptr b) ∧
      (∀ i p, r = some (i, p) → i = ir ∧ ∃ e ∈ l, e.idx = ir ∧ e.ptr = p) := by
  intro l
  induction l with
  | nil =>
    intro st r st' h
    simp only [abortedScan] at h
    cases h
    exact ⟨⟨[], by simp, by simp⟩, by intro i p hip; simp at hip⟩
  | cons e rest ih =>
    intro st r st' h
    simp only [abortedScan] at h
    by_cases heq : e.idx = ir
    · rw [if_pos heq] at h
      by_cases hok : env.ans st.k
      · rw [if_pos (by simp [hok])] at h
        cases h
        constructor
        · refine ⟨[Ev.trySelEv e.idx e.ptr (env.ans st.k)],
            by simp [St.push, St.bump], ?_⟩
          intro ev hev
          simp only [List.mem_singleton] at hev
          exact ⟨env.ans st.k, e, List.mem_cons_self _ _, heq,
            by rw [hev, heq]⟩
        · intro i p hip
          simp only [Option.some.injEq, Prod.mk.injEq] at hip
          exact ⟨by rw [← hip.1, heq], e, List.mem_cons_self _ _, heq,
            hip.2⟩
      · have hb : env.ans st.k = false := by
          cases hba : env.ans st.k
          · rfl
          · exact absurd hba hok
        rw [if_neg (by simp [hb])] at h
        obtain ⟨⟨tr, htr, hall⟩, hres⟩ := ih _ _ _ h
        constructor
        · refine ⟨Ev.trySelEv e.idx e.ptr (env.ans st.k) :: tr, ?_, ?_⟩
          · rw [htr]; simp [St.push, St.bump]
          · intro ev hev
            rcases List.mem_cons.mp hev with hh | hh
            · exact ⟨env.ans st.k, e, List.mem_cons_self _ _, heq,
                by rw [hh, heq]⟩
            · obtain ⟨b, e1, he1, hidx, hev1⟩ := hall ev hh
              exact ⟨b, e1, List.mem_cons_of_mem _ he1, hidx, hev1⟩
        · intro i p hip
          obtain ⟨hi, e1, he1, hidx, hp⟩ := hres i p hip
          exact ⟨hi, e1, List.mem_cons_of_mem _ he1, hidx, hp⟩
    · rw [if_neg heq] at h
      obtain ⟨⟨tr, htr, hall⟩, hres⟩ := ih _ _ _ h
      constructor
      · refine ⟨tr, htr, ?_⟩
        intro ev hev
        obtain ⟨b, e1, he1, hidx, hev1⟩ := hall ev hev
        exact ⟨b, e1, List.mem_cons_of_mem _ he1, hidx, hev1⟩
      · intro i p hip
        obtain ⟨hi, e1, he1, hidx, hp⟩ := hres i p hip
        exact ⟨hi, e1, List.mem_cons_of_mem _ he1, hidx, hp⟩

/-- The accept scan records only accept events and returns index/pointer
pairs taken from the handle list. -/
lemma acceptScan_spec (env : PeerEnv) (sel : Selected) :
    ∀ (l : List Entry) (p0 : Nat) (st : St) (r : Option (Nat × Nat))
      (st' : St),
      acceptScan env sel l p0 st = (r, st') →
      (∃ tr, st'.trace = st.trace ++ tr ∧
        ∀ ev ∈ tr, ∃ o b, ev = Ev.acceptEv o b) ∧
      (∀ i p, r = some (i, p) → ∃ e ∈ l, e.idx = i ∧ e.ptr = p) := by
  intro l
  induction l with
  | nil =>
    intro p0 st r st' h
    simp only [acceptScan] at h
    cases h
    exact ⟨⟨[], by simp, by simp⟩, by intro i p hip; simp at hip⟩
  | cons e rest ih =>
    intro p0 st r st' h
    simp only [acceptScan] at h
    by_cases heq : sel = Selected.operation (Operation.ofAddr (env.opAddr p0))
    · rw [if_pos heq] at h
      by_cases hok : env.ans st.k
      · rw [if_pos (by simp [hok])] at h
        cases h
        constructor
        · refine ⟨[Ev.acceptEv (env.opAddr p0) (env.ans st.k)],
            by simp [St.push, St.bump], ?_⟩
          intro ev hev
          simp only [List.mem_singleton] at hev
          exact ⟨_, _, hev⟩
        · intro i p hip
          simp only [Option.some.injEq, Prod.mk.injEq] at hip
          exact ⟨e, List.mem_cons_self _ _, hip.1, hip.2⟩
      · have hb : env.ans st.k = false := by
          cases hba : env.ans st.k
          · rfl
          · exact absurd hba hok
        rw [if_neg (by simp [hb])] at h
        obtain ⟨⟨tr, htr, hall⟩, hres⟩ := ih _ _ _ _ h
        constructor
        · refine ⟨Ev.acceptEv (env.opAddr p0) (env.ans st.k) :: tr, ?_, ?_⟩
          · rw [htr]; simp [St.push, St.bump]
          · intro ev hev
            rcases List.mem_cons.mp hev with hh | hh
            · exact ⟨_, _, hh⟩
            · exact hall ev hh
        · intro i p hip
          obtain ⟨e1, he1, hidx, hp⟩ := hres i p hip
          exact ⟨e1, List.mem_cons_of_mem _ he1, hidx, hp⟩
    · rw [if_neg heq] at h
      obtain ⟨⟨tr, htr, hall⟩, hres⟩ := ih _ _ _ _ h
      exact ⟨⟨tr, htr, hall⟩, fun i p hip => by
        obtain ⟨e1, he1, hidx, hp⟩ := hres i p hip
        exact ⟨e1, List.mem_cons_of_mem _ he1, hidx, hp⟩⟩

/-- `resolve` preserves the selection state, ready index and registered
count it is given. -/
lemma resolve_fields (env : PeerEnv) (hs : List Entry) (sel : Selected)
    (cnt : Nat) (ir : Option Nat) (st : St) :
    (resolve env hs sel cnt ir st).sel = sel ∧
    (resolve env hs sel cnt ir st).idxReady = ir ∧
    (resolve env hs sel cnt ir st).cnt = cnt := by
  unfold resolve
  cases sel with
  | waiting => exact ⟨rfl, rfl, rfl⟩
  | aborted =>
    cases ir with
    | none => exact ⟨rfl, rfl, rfl⟩
    | some ir0 =>
      rcases hsc : abortedScan env ir0 hs (unregLoop env (hs.take cnt) 0 st)
        with ⟨r, st2⟩
      simp [hsc]
  | disconnected => exact ⟨rfl, rfl, rfl⟩
  | operation op =>
    rcases hsc : acceptScan env (Selected.operation op) hs 0
        (unregLoop env (hs.take cnt) 0 st) with ⟨r, st2⟩
    simp [hsc]

/-- The trace added by `resolve`: the unregister block for the registered
prefix followed by scan events only. -/
lemma resolve_trace (env : PeerEnv) (hs : List Entry) (sel : Selected)
    (cnt : Nat) (ir : Option Nat) (st : St) (hcnt : cnt ≤ hs.length) :
    ∃ tr, (resolve env hs sel cnt ir st).st.trace = st.trace ++ tr ∧
      unregOps tr = opsSeg env 0 cnt ∧ regOps tr = [] := by
  have hlen : (hs.take cnt).length = cnt := by
    simp [List.length_take, Nat.min_eq_left hcnt]
  have hu := unregLoop_spec env (hs.take cnt) 0 st
  rw [hlen] at hu
  unfold resolve
  cases sel with
  | waiting =>
    exact ⟨(opsSeg env 0 cnt).map Ev.unregEv, hu, (unregOps_map _).1,
      (unregOps_map _).2⟩
  | aborted =>
    cases ir with
    | none =>
      exact ⟨(opsSeg env 0 cnt).map Ev.unregEv, hu, (unregOps_map _).1,
        (unregOps_map _).2⟩
    | some ir0 =>
      rcases hsc : abortedScan env ir0 hs (unregLoop env (hs.take cnt) 0 st)
        with ⟨r, st2⟩
      obtain ⟨⟨tr2, htr2, hall2⟩, _⟩ := abortedScan_spec env ir0 hs _ _ _ hsc
      refine ⟨(opsSeg env 0 cnt).map Ev.unregEv ++ tr2, ?_, ?_, ?_⟩
      · simp only [hsc]
        rw [htr2, hu, List.append_assoc]
      · rw [unregOps_append, (unregOps_map _).1]
        have h2 : unregOps tr2 = [] := by
          refine (regOps_nil_of ?_).2
          intro ev hev
          obtain ⟨b, e, _, _, hev1⟩ := hall2 ev hev
          rw [hev1]; rfl
        rw [h2, List.append_nil]
      · rw [regOps_append, (unregOps_map _).2]
        have h2 : regOps tr2 = [] := by
          refine (regOps_nil_of ?_).1
          intro ev hev
          obtain ⟨b, e, _, _, hev1⟩ := hall2 ev hev
          rw [hev1]; rfl
        rw [h2, List.append_nil]
  | disconnected =>
    exact ⟨(opsSeg env 0 cnt).map Ev.unregEv, hu, (unregOps_map _).1,
      (unregOps_map _).2⟩
  | operation op =>
    rcases hsc : acceptScan env (Selected.operation op) hs 0
        (unregLoop env (hs.take cnt) 0 st) with ⟨r, st2⟩
    obtain ⟨⟨tr2, htr2, hall2⟩, _⟩ :=
      acceptScan_spec env (Selected.operation op) hs _ _ _ _ hsc
    refine ⟨(opsSeg env 0 cnt).map Ev.unregEv ++ tr2, ?_, ?_, ?_⟩
    · simp only [hsc]
      rw [htr2, hu, List.append_assoc]
    · rw [unregOps_append, (unregOps_map _).1]
      have h2 : unregOps tr2 = [] := by
        refine (regOps_nil_of ?_).2
        intro ev hev
        obtain ⟨o, b, hev1⟩ := hall2 ev hev
        rw [hev1]; rfl
      rw [h2, List.append_nil]
    · rw [regOps_append, (unregOps_map _).2]
      have h2 : regOps tr2 = [] := by
        refine (regOps_nil_of ?_).1
        intro ev hev
        obtain ⟨o, b, hev1⟩ := hall2 ev hev
        rw [hev1]; rfl
      rw [h2, List.append_nil]

/-- In the `Aborted` case with a recorded ready index, `resolve` either
returns the readied entry's index and pointer or falls through with
none. -/
lemma resolve_aborted_spec (env : PeerEnv) (hs : List Entry) (cnt : Nat)
    (ir : Nat) (st : St) :
    (resolve env hs Selected.aborted cnt (some ir) st).res = BB.ret none ∨
    ∃ e ∈ hs, e.idx = ir ∧
      (resolve env hs Selected.aborted cnt (some ir) st).res =
        BB.ret (some (ir, e.ptr)) := by
  unfold resolve
  rcases hsc : abortedScan env ir hs (unregLoop env (hs.take cnt) 0 st)
    with ⟨r, st2⟩
  obtain ⟨_, hres⟩ := abortedScan_spec env ir hs _ _ _ hsc
  match r with
  | none => left; simp [hsc]
  | some (i, p) =>
    obtain ⟨hi, e, he, hidx, hp⟩ := hres i p rfl
    right
    refine ⟨e, he, hidx, ?_⟩
    simp only [hsc]
    rw [← hi, hp]

/-- A successful `resolve` result originates from an entry of the handle
list. -/
lemma resolve_origin (env : PeerEnv) (hs : List Entry) (sel : Selected)
    (cnt : Nat) (ir : Option Nat) (st : St) (i p : Nat) :
    (resolve env hs sel cnt ir st).res = BB.ret (some (i, p)) →
    ∃ e ∈ hs, e.idx = i ∧ e.ptr = p := by
  unfold resolve
  cases sel with
  | waiting => intro h; simp at h
  | aborted =>
    cases ir with
    | none => intro h; simp at h
    | some ir0 =>
      rcases hsc : abortedScan env ir0 hs (unregLoop env (hs.take cnt) 0 st)
        with ⟨r, st2⟩
      obtain ⟨_, hres⟩ := abortedScan_spec env ir0 hs _ _ _ hsc
      intro h
      simp only [hsc] at h
      match r, h with
      | some (i0, p0), h =>
        simp only [BB.ret.injEq, Option.some.injEq, Prod.mk.injEq] at h
        obtain ⟨hi, e, he, hidx, hp⟩ := hres i0 p0 rfl
        exact ⟨e, he, by rw [hidx, ← hi, h.1], by rw [hp, h.2]⟩
  | disconnected => intro h; simp at h
  | operation op =>
    rcases hsc : acceptScan env (Selected.operation op) hs 0
        (unregLoop env (hs.take cnt) 0 st) with ⟨r, st2⟩
    obtain ⟨_, hres⟩ :=
      acceptScan_spec env (Selected.operation op) hs _ _ _ _ hsc
    intro h
    simp only [hsc] at h
    match r, h with
    | some (i0, p0), h =>
      simp only [BB.ret.injEq, Option.some.injEq, Prod.mk.injEq] at h
      obtain ⟨e, he, hidx, hp⟩ := hres i0 p0 rfl
      exact ⟨e, he, by rw [hidx, h.1], by rw [hp, h.2]⟩

/-- Inversion principle for `blockingBody`: it either resolves directly
after a registration break, or waits first; a parked-forever wait
diverges. -/
lemma blockingBody_eq (env : PeerEnv) (hs : List Entry) (tmo : Timeout)
    (st : St) :
    ∃ selR cnt ir st1,
      regLoop env hs 0 0 { st with slot := Selected.waiting } =
        (selR, cnt, ir, st1) ∧
      ((selR ≠ Selected.waiting ∧
          blockingBody env hs tmo st = resolve env hs selR cnt ir st1) ∨
        (selR = Selected.waiting ∧
          ∃ dl st2,
            foldDeadlines env hs (timeoutDeadline tmo) st1 = (dl, st2) ∧
            ((∃ st3, ctxWaitUntil env dl st2 = (none, st3) ∧
                blockingBody env hs tmo st =
                  ⟨BB.diverge, Selected.waiting, cnt, ir, st3⟩) ∨
              (∃ selW st3, ctxWaitUntil env dl st2 = (some selW, st3) ∧
                blockingBody env hs tmo st =
                  resolve env hs selW cnt ir st3)))) := by
  rcases hreg : regLoop env hs 0 0 { st with slot := Selected.waiting } with
    ⟨selR, cnt, ir, st1⟩
  refine ⟨selR, cnt, ir, st1, rfl, ?_⟩
  by_cases hw : selR = Selected.waiting
  · right
    refine ⟨hw, ?_⟩
    rcases hfd : foldDeadlines env hs (timeoutDeadline tmo) st1 with ⟨dl, st2⟩
    refine ⟨dl, st2, rfl, ?_⟩
    rcases hW : ctxWaitUntil env dl st2 with ⟨sw, st3⟩
    match sw, hW with
    | none, hW =>
      left
      refine ⟨st3, rfl, ?_⟩
      unfold blockingBody
      rw [hreg]
      simp [hw, hfd, hW]
    | some selW, hW =>
      right
      refine ⟨selW, st3, rfl, ?_⟩
      unfold blockingBody
      rw [hreg]
      simp [hw, hfd, hW]
  · left
    refine ⟨hw, ?_⟩
    unfold blockingBody
    rw [hreg]
    simp [hw]

/-- Whenever the blocking body completes (does not park forever), its trace
addition registers and unregisters the same operation identifiers, in the
same order. -/
lemma blockingBody_balance (env : PeerEnv) (hs : List Entry)
    (tmo : Timeout) (st : St) :
    (blockingBody env hs tmo st).res ≠ BB.diverge →
    ∃ tr, (blockingBody env hs tmo st).st.trace = st.trace ++ tr ∧
      regOps tr = unregOps tr := by
  intro hnd
  obtain ⟨selR, cnt, ir, st1, hreg, hcase⟩ := blockingBody_eq env hs tmo st
  obtain ⟨n, trR, hn, hcnt, htrR, hro, huo⟩ :=
    regLoop_spec env hs 0 0 _ _ _ _ _ hreg
  have hcle : cnt ≤ hs.length := by omega
  have htrR' : st1.trace = st.trace ++ trR := by simpa using htrR
  rcases hcase with ⟨hne, heq⟩ | ⟨hww, dl, st2, hfd, hrest⟩
  · obtain ⟨trRes, htrRes, huoR, hroR⟩ :=
      resolve_trace env hs selR cnt ir st1 hcle
    refine ⟨trR ++ trRes, ?_, ?_⟩
    · rw [heq, htrRes, htrR', List.append_assoc]
    · rw [regOps_append, unregOps_append, hro, huo, hroR, huoR]
      simp [hcnt]
  · obtain ⟨trD, htrD, hallD⟩ := foldDeadlines_trace env hs (timeoutDeadline tmo) st1
    rw [hfd] at htrD
    have hwt := ctxWaitUntil_trace env dl st2
    rcases hrest with ⟨st3, hW, heq⟩ | ⟨selW, st3, hW, heq⟩
    · exfalso
      apply hnd
      rw [heq]
    · rw [hW] at hwt
      obtain ⟨trRes, htrRes, huoR, hroR⟩ :=
        resolve_trace env hs selW cnt ir st3 hcle
      refine ⟨trR ++ trD ++ [Ev.waitEv] ++ trRes, ?_, ?_⟩
      · rw [heq, htrRes, hwt, htrD, htrR']
        simp [List.append_assoc]
      · have hD : regOps trD = [] ∧ unregOps trD = [] := by
          refine regOps_nil_of ?_
          intro ev hev
          obtain ⟨d, hd⟩ := hallD ev hev
          rw [hd]; rfl
        have hWt : regOps [Ev.waitEv] = [] ∧ unregOps [Ev.waitEv] = [] := by
          refine regOps_nil_of ?_
          intro ev hev
          simp only [List.mem_singleton] at hev
          rw [hev]; rfl
        rw [regOps_append, regOps_append, regOps_append,
          unregOps_append, unregOps_append, unregOps_append,
          hro, huo, hroR, huoR, hD.1, hD.2, hWt.1, hWt.2]
        simp [hcnt]

/-- Claim C2's blocking-body wiring: a recorded ready index forces the
aborted outcome, and the body then either returns that entry's index and
pointer or falls through with none. -/
lemma blockingBody_ready_index (env : PeerEnv) (hs : List Entry)
    (tmo : Timeout) (st : St) (ir : Nat) :
    (blockingBody env hs tmo st).idxReady = some ir →
    (blockingBody env hs tmo st).sel = Selected.aborted ∧
    ((blockingBody env hs tmo st).res = BB.ret none ∨
      ∃ e ∈ hs, e.idx = ir ∧
        (blockingBody env hs tmo st).res = BB.ret (some (ir, e.ptr))) := by
  intro hir
  obtain ⟨selR, cnt, ir0, st1, hreg, hcase⟩ := blockingBody_eq env hs tmo st
  have hir0 : ir0 = some ir := by
    rcases hcase with ⟨hne, heq⟩ | ⟨hww, dl, st2, hfd, hrest⟩
    · rw [heq] at hir
      rw [← (resolve_fields env hs selR cnt ir0 st1).2.1, hir]
    · rcases hrest with ⟨st3, hW, heq⟩ | ⟨selW, st3, hW, heq⟩
      · rw [heq] at hir; exact hir
      · rw [heq] at hir
        rw [← (resolve_fields env hs selW cnt ir0 st3).2.1, hir]
  subst hir0
  obtain ⟨hsR, hslotR, j, e, hget, hire, hcnt, htr⟩ :=
    regLoop_ready_spec env hs 0 0 _ _ _ _ _ hreg
  rcases hcase with ⟨hne, heq⟩ | ⟨hww, dl, st2, hfd, hrest⟩
  · rw [heq]
    rw [(resolve_fields env hs selR cnt (some ir) st1).1, hsR]
    refine ⟨rfl, ?_⟩
    rcases resolve_aborted_spec env hs cnt ir st1 with h | ⟨e1, he1, hidx, h⟩
    · exact Or.inl h
    · exact Or.inr ⟨e1, he1, hidx, h⟩
  · exact absurd hsR (by rw [hww]; simp)

/-- A successful blocking-body result originates from an entry of the
handle list. -/
lemma blockingBody_origin (env : PeerEnv) (hs : List Entry) (tmo : Timeout)
    (st : St) (i p : Nat) :
    (blockingBody env hs tmo st).res = BB.ret (some (i, p)) →
    ∃ e ∈ hs, e.idx = i ∧ e.ptr = p := by
  intro h
  obtain ⟨selR, cnt, ir, st1, hreg, hcase⟩ := blockingBody_eq env hs tmo st
  rcases hcase with ⟨hne, heq⟩ | ⟨hww, dl, st2, hfd, hrest⟩
  · rw [heq] at h
    exact resolve_origin env hs selR cnt ir st1 i p h
  · rcases hrest with ⟨st3, hW, heq⟩ | ⟨selW, st3, hW, heq⟩
    · rw [heq] at h; simp at h
    · rw [heq] at h
      exact resolve_origin env hs selW cnt ir st3 i p h

/-- Every event of a `try_select` pass is a probe event. -/
lemma tryPass_evs (env : PeerEnv) :
    ∀ (l : List Entry) (st : St) (r : Option (Nat × Nat)) (st' : St),
      tryPass env l st = (r, st') →
      ∃ tr, st'.trace = st.trace ++ tr ∧ ∀ ev ∈ tr, ev.isTrySel = true := by
  intro l st r st' h
  match r with
  | none =>
    refine ⟨failPass l, (tryPass_spec env l st none st' h).1 rfl, ?_⟩
    intro ev hev
    simp only [failPass, List.mem_map] at hev
    obtain ⟨e, _, he⟩ := hev
    rw [← he]; rfl
  | some (i, p) =>
    obtain ⟨l1, e, l2, _, _, _, htr⟩ :=
      (tryPass_spec env l st _ st' h).2 i p rfl
    refine ⟨failPass l1 ++ [Ev.trySelEv e.idx e.ptr true], by
      rw [htr]; simp [List.append_assoc], ?_⟩
    intro ev hev
    simp only [failPass, List.mem_append, List.mem_map,
      List.mem_singleton] at hev
    rcases hev with ⟨x, _, hx⟩ | hx
    · rw [← hx]; rfl
    · rw [hx]; rfl

/-- Probe and state events are not register/unregister events. -/
lemma isRegU_false_of_probe {ev : Ev}
    (h : ev.isTrySel = true ∨ ev.isState = true) : ev.isRegU = false := by
  cases ev <;> (try rfl) <;>
    rcases h with h | h <;> simp [Ev.isTrySel, Ev.isState] at h

/-- The state re-read records only state events. -/
lemma stateCheck_evs (env : PeerEnv) :
    ∀ (l : List Entry) (states : List Nat) (st : St),
      ∃ tr, ((stateCheck env l states st).2.2).trace = st.trace ++ tr ∧
        ∀ ev ∈ tr, ev.isState = true := by
  intro l
  induction l with
  | nil => intro states st; exact ⟨[], by simp [stateCheck], by simp⟩
  | cons e rest ih =>
    intro states st
    match states with
    | [] => exact ⟨[], by simp [stateCheck], by simp⟩
    | old :: olds =>
      have hih := ih olds ((st.push (Ev.stateEv (env.stateAns st.k))).bump env)
      rcases hrec : stateCheck env rest olds
          ((st.push (Ev.stateEv (env.stateAns st.k))).bump env)
        with ⟨vs, ch, st2⟩
      rw [hrec] at hih
      obtain ⟨tr, htr, hall⟩ := hih
      refine ⟨Ev.stateEv (env.stateAns st.k) :: tr, ?_, ?_⟩
      · simp only [stateCheck]
        rw [hrec]
        simp only []
        rw [htr]
        simp [St.push, St.bump]
      · intro ev hev
        rcases List.mem_cons.mp hev with hh | hh
        · rw [hh]; rfl
        · exact hall ev hh

/-- The non-blocking retry loop records only probe and state events. -/
lemma nowLoop_evs (env : PeerEnv) (hs : List Entry) :
    ∀ (fuel : Nat) (states : List Nat) (st : St),
      ∃ tr, ((nowLoop env hs fuel states st).2).trace = st.trace ++ tr ∧
        ∀ ev ∈ tr, ev.isTrySel = true ∨ ev.isState = true := by
  intro fuel
  induction fuel with
  | zero => intro states st; exact ⟨[], by simp [nowLoop], by simp⟩
  | succ fuel ih =>
    intro states st
    rcases htp : tryPass env hs st with ⟨r, st1⟩
    obtain ⟨tr1, htr1, hall1⟩ := tryPass_evs env hs st r st1 htp
    match r, htp with
    | some (i, p), htp =>
      refine ⟨tr1, ?_, fun ev hev => Or.inl (hall1 ev hev)⟩
      simp only [nowLoop, htp]
      exact htr1
    | none, htp =>
      rcases hsc : stateCheck env hs states st1 with ⟨vs, ch, st2⟩
      obtain ⟨tr2, htr2, hall2⟩ := stateCheck_evs env hs states st1
      rw [hsc] at htr2
      have htr2' : st2.trace = st1.trace ++ tr2 := htr2
      by_cases hch : ch = true
      · obtain ⟨tr3, htr3, hall3⟩ := ih vs st2
        refine ⟨tr1 ++ tr2 ++ tr3, ?_, ?_⟩
        · simp only [nowLoop, htp, hsc]
          rw [if_pos hch]
          rw [htr3, htr2', htr1]
          simp [List.append_assoc]
        · intro ev hev
          simp only [List.mem_append] at hev
          rcases hev with (hh | hh) | hh
          · exact Or.inl (hall1 ev hh)
          · exact Or.inr (hall2 ev hh)
          · exact hall3 ev hh
      · refine ⟨tr1 ++ tr2, ?_, ?_⟩
        · simp only [nowLoop, htp, hsc]
          rw [if_neg hch]
          show st2.trace = st.trace ++ (tr1 ++ tr2)
          rw [htr2', htr1]
          simp [List.append_assoc]
        · intro ev hev
          simp only [List.mem_append] at hev
          rcases hev with hh | hh
          · exact Or.inl (hall1 ev hh)
          · exact Or.inr (hall2 ev hh)

/-- The whole non-blocking path records only probe and state events. -/
lemma nowPath_evs (env : PeerEnv) (hs : List Entry) (fuel : Nat) (st : St) :
    ∃ tr, ((nowPath env hs fuel st).2).trace = st.trace ++ tr ∧
      ∀ ev ∈ tr, ev.isTrySel = true ∨ ev.isState = true := by
  unfold nowPath
  by_cases hlen : hs.length ≤ 1
  · rw [if_pos hlen]
    rcases htp : tryPass env hs st with ⟨r, st1⟩
    obtain ⟨tr1, htr1, hall1⟩ := tryPass_evs env hs st r st1 htp
    match r with
    | some (i, p) => exact ⟨tr1, htr1, fun ev hev => Or.inl (hall1 ev hev)⟩
    | none => exact ⟨tr1, htr1, fun ev hev => Or.inl (hall1 ev hev)⟩
  · rw [if_neg hlen]
    rcases hrs : readStates env hs st with ⟨states, st1⟩
    obtain ⟨_, htr1⟩ := readStates_spec env hs st states st1 hrs
    obtain ⟨tr2, htr2, hall2⟩ := nowLoop_evs env hs fuel states st1
    refine ⟨stateEvs states ++ tr2, ?_, ?_⟩
    · rw [htr2, htr1, List.append_assoc]
    · intro ev hev
      rcases List.mem_append.mp hev with hh | hh
      · simp only [stateEvs, List.mem_map] at hh
        obtain ⟨v, _, hv⟩ := hh
        right; rw [← hv]; rfl
      · exact hall2 ev hh

/-- A full non-blocking `run_select` invocation records only probe and
state events: it performs no registration and never parks. -/
lemma runSelectNow_evs (env : PeerEnv) (shuffle : List Entry → List Entry)
    (fuel : Nat) (hs0 : List Entry) (st : St) :
    ∃ tr, ((runSelectNow env shuffle fuel hs0 st).2).trace = st.trace ++ tr ∧
      ∀ ev ∈ tr, ev.isTrySel = true ∨ ev.isState = true := by
  match hs0 with
  | [] => exact ⟨[], by simp [runSelectNow], by simp⟩
  | e :: rest =>
    simp only [runSelectNow]
    obtain ⟨tr, htr, hall⟩ :=
      nowPath_evs env (shuffle (e :: rest)) fuel { st with tok := 0 }
    exact ⟨tr, htr, hall⟩

/-- When the non-blocking retry loop gives up, its final actions are one
full failing probe pass followed by a state re-read that exactly repeats
the previous snapshot. -/
lemma nowLoop_none_spec (env : PeerEnv) (hs : List Entry) :
    ∀ (fuel : Nat) (states : List Nat) (st : St) (st' : St) (A : List Ev),
      states.length = hs.length →
      st.trace = A ++ stateEvs states →
      nowLoop env hs fuel states st = (RunRes.nothingReady, st') →
      ∃ A2 vs, vs.length = hs.length ∧
        st'.trace = A2 ++ stateEvs vs ++ failPass hs ++ stateEvs vs := by
  intro fuel
  induction fuel with
  | zero =>
    intro states st st' A hlen hA h
    simp [nowLoop] at h
  | succ fuel ih =>
    intro states st st' A hlen hA h
    rcases htp : tryPass env hs st with ⟨r, st1⟩
    match r, htp with
    | some (i, p), htp =>
      simp only [nowLoop, htp] at h
      simp at h
    | none, htp =>
      have htr1 : st1.trace = st.trace ++ failPass hs :=
        (tryPass_spec env hs st _ _ htp).1 rfl
      rcases hsc : stateCheck env hs states st1 with ⟨vs, ch, st2⟩
      simp only [nowLoop, htp, hsc] at h
      obtain ⟨hvslen, htr2, hch⟩ :=
        stateCheck_spec env hs states st1 vs ch st2 hlen hsc
      by_cases hcht : ch = true
      · rw [if_pos hcht] at h
        exact ih vs st2 st' (A ++ stateEvs states ++ failPass hs) hvslen
          (by rw [htr2, htr1, hA]) h
      · rw [if_neg hcht] at h
        cases h
        have hchf : ch = false := by
          cases ch
          · rfl
          · exact absurd rfl hcht
        have hvs : vs = states := hch.mp hchf
        refine ⟨A, states, by rw [← hvs]; exact hvslen, ?_⟩
        rw [htr2, htr1, hA, hvs]

/-- The per-operation register/unregister counters agree with the
projected identifier lists. -/
lemma regCount_countP (op : Nat) :
    ∀ tr : List Ev,
      regCount op tr = (regOps tr).countP (fun o => o == op) ∧
      unregCount op tr = (unregOps tr).countP (fun o => o == op) := by
  intro tr
  induction tr with
  | nil => exact ⟨rfl, rfl⟩
  | cons ev rest ih =>
    obtain ⟨h1, h2⟩ := ih
    simp only [regCount, unregCount, regOps, unregOps] at h1 h2 ⊢
    cases ev <;>
      simp [List.countP_cons, List.filterMap_cons, h1, h2]

/-- Registers that returned false are a subset of all registers. -/
lemma regFalseCount_le (op : Nat) (tr : List Ev) :
    regFalseCount op tr ≤ regCount op tr := by
  refine List.countP_mono_left ?_
  intro ev _ h
  cases ev <;> simp_all

/-- The outer loop of the blocking path keeps registers and unregisters
balanced unless the thread parks forever. -/
lemma outerLoop_balance (env : PeerEnv) (shuffle : List Entry → List Entry)
    (hs : List Entry) (tmo : Timeout) :
    ∀ (fuel : Nat) (st : St) (r : RunRes) (st' : St),
      outerLoop env shuffle hs tmo fuel st = (r, st') →
      r ≠ RunRes.diverge →
      ∃ tr, st'.trace = st.trace ++ tr ∧ regOps tr = unregOps tr := by
  intro fuel
  induction fuel with
  | zero =>
    intro st r st' h hnd
    simp only [outerLoop] at h
    cases h
    exact ⟨[], by simp, rfl⟩
  | succ fuel ih =>
    intro st r st' h hnd
    rcases htp : tryPass env hs st with ⟨r1, st1⟩
    obtain ⟨tr1, htr1, hall1⟩ := tryPass_evs env hs st r1 st1 htp
    have h1RU : regOps tr1 = [] ∧ unregOps tr1 = [] :=
      regOps_nil_of fun ev hev => isRegU_false_of_probe (Or.inl (hall1 ev hev))
    match r1, htp with
    | some (i, p), htp =>
      simp only [outerLoop, htp] at h
      cases h
      exact ⟨tr1, htr1, by rw [h1RU.1, h1RU.2]⟩
    | none, htp =>
      simp only [outerLoop, htp] at h
      rcases hbb : blockingBody env hs tmo st1 with ⟨res, selB, cntB, irB, stB⟩
      rw [hbb] at h
      have hresB : (blockingBody env hs tmo st1).res ≠ BB.diverge → True := fun _ => trivial
      match res, h with
      | BB.diverge, h =>
        have h' : ((RunRes.diverge, stB) : RunRes × St) = (r, st') := h
        cases h'
        exact absurd rfl hnd
      | BB.unreach, h =>
        have h' : ((RunRes.unreach, stB) : RunRes × St) = (r, st') := h
        cases h'
        obtain ⟨trB, htrB, hbalB⟩ := blockingBody_balance env hs tmo st1
          (by rw [hbb]; intro hc; cases hc)
        rw [hbb] at htrB
        have htrB' : st'.trace = st1.trace ++ trB := htrB
        refine ⟨tr1 ++ trB, ?_, ?_⟩
        · rw [htrB', htr1, List.append_assoc]
        · rw [regOps_append, unregOps_append, h1RU.1, h1RU.2, hbalB]
      | BB.ret (some (i, p)), h =>
        have h' : ((RunRes.found stB.tok i p, stB) : RunRes × St) = (r, st') := h
        cases h'
        obtain ⟨trB, htrB, hbalB⟩ := blockingBody_balance env hs tmo st1
          (by rw [hbb]; intro hc; cases hc)
        rw [hbb] at htrB
        have htrB' : st'.trace = st1.trace ++ trB := htrB
        refine ⟨tr1 ++ trB, ?_, ?_⟩
        · rw [htrB', htr1, List.append_assoc]
        · rw [regOps_append, unregOps_append, h1RU.1, h1RU.2, hbalB]
      | BB.ret none, h =>
        obtain ⟨trB, htrB, hbalB⟩ := blockingBody_balance env hs tmo st1
          (by rw [hbb]; intro hc; cases hc)
        rw [hbb] at htrB
        have htrB' : stB.trace = st1.trace ++ trB := htrB
        match tmo, ih, h with
        | Timeout.now, _, h =>
          have h' : ((RunRes.unreach, stB) : RunRes × St) = (r, st') := h
          cases h'
          refine ⟨tr1 ++ trB, ?_, ?_⟩
          · rw [htrB', htr1, List.append_assoc]
          · rw [regOps_append, unregOps_append, h1RU.1, h1RU.2, hbalB]
        | Timeout.never, ih, h =>
          have h' : outerLoop env shuffle hs Timeout.never fuel stB = (r, st') := h
          obtain ⟨tr2, htr2, hbal2⟩ := ih stB r st' h' hnd
          refine ⟨tr1 ++ trB ++ tr2, ?_, ?_⟩
          · rw [htr2, htrB', htr1]; simp [List.append_assoc]
          · rw [regOps_append, unregOps_append, regOps_append, unregOps_append,
              h1RU.1, h1RU.2, hbalB, hbal2]
        | Timeout.At t, ih, h =>
          have hNowRU :
              regOps [Ev.nowEv (env.nowAns stB.k)] = [] ∧
              unregOps [Ev.nowEv (env.nowAns stB.k)] = [] := by
            refine regOps_nil_of ?_
            intro ev hev
            simp only [List.mem_singleton] at hev
            rw [hev]; rfl
          by_cases hle : t ≤ env.nowAns stB.k
          · have h' : runSelectNow env shuffle fuel hs
                ((stB.push (Ev.nowEv (env.nowAns stB.k))).bump env) = (r, st') := by
              have h2 : (if t ≤ env.nowAns stB.k then
                  runSelectNow env shuffle fuel hs
                    ((stB.push (Ev.nowEv (env.nowAns stB.k))).bump env)
                else outerLoop env shuffle hs (Timeout.At t) fuel
                    ((stB.push (Ev.nowEv (env.nowAns stB.k))).bump env)) =
                  (r, st') := h
              rwa [if_pos hle] at h2
            obtain ⟨trN, htrN, hallN⟩ := runSelectNow_evs env shuffle fuel hs
              ((stB.push (Ev.nowEv (env.nowAns stB.k))).bump env)
            rw [h'] at htrN
            have htrN' : st'.trace =
                stB.trace ++ [Ev.nowEv (env.nowAns stB.k)] ++ trN := htrN
            have hNRU : regOps trN = [] ∧ unregOps trN = [] :=
              regOps_nil_of fun ev hev => isRegU_false_of_probe (hallN ev hev)
            refine ⟨tr1 ++ trB ++ [Ev.nowEv (env.nowAns stB.k)] ++ trN, ?_, ?_⟩
            · rw [htrN', htrB', htr1]; simp [List.append_assoc]
            · rw [regOps_append, unregOps_append, regOps_append, unregOps_append,
                regOps_append, unregOps_append, h1RU.1, h1RU.2, hbalB,
                hNowRU.1, hNowRU.2, hNRU.1, hNRU.2]
          · have h' : outerLoop env shuffle hs (Timeout.At t) fuel
                ((stB.push (Ev.nowEv (env.nowAns stB.k))).bump env) = (r, st') := by
              have h2 : (if t ≤ env.nowAns stB.k then
                  runSelectNow env shuffle fuel hs
                    ((stB.push (Ev.nowEv (env.nowAns stB.k))).bump env)
                else outerLoop env shuffle hs (Timeout.At t) fuel
                    ((stB.push (Ev.nowEv (env.nowAns stB.k))).bump env)) =
                  (r, st') := h
              rwa [if_neg hle] at h2
            obtain ⟨tr2, htr2, hbal2⟩ := ih _ r st' h' hnd
            have htr2' : st'.trace =
                stB.trace ++ [Ev.nowEv (env.nowAns stB.k)] ++ tr2 := by
              rw [htr2]; simp [St.push, St.bump]
            refine ⟨tr1 ++ trB ++ [Ev.nowEv (env.nowAns stB.k)] ++ tr2, ?_, ?_⟩
            · rw [htr2', htrB', htr1]; simp [List.append_assoc]
            · rw [regOps_append, unregOps_append, regOps_append, unregOps_append,
                regOps_append, unregOps_append, h1RU.1, h1RU.2, hbalB,
                hNowRU.1, hNowRU.2, hbal2]

/-- Claim C1, amended: in `run_select`'s blocking path, `unregister` is
called exactly once, with the same operation identity, for every handle on
which `register` was called — whether that `register` returned false or
true — before the context is reused; hence, per endpoint, the number of
register calls of any return value (not only those that returned false)
equals the number of subsequent unregister calls, and the register calls
that returned false are at most the unregister calls.  (Holds whenever the
run does not park forever.) -/
theorem c1_registration_balance :
    ∀ env shuffle fuel hs tmo r st',
      runSelect env shuffle fuel hs tmo = (r, st') →
      r ≠ RunRes.diverge →
      regOps st'.trace = unregOps st'.trace ∧
      ∀ op, regCount op st'.trace = unregCount op st'.trace ∧
        regFalseCount op st'.trace ≤ unregCount op st'.trace := by
  intro env shuffle fuel hs tmo r st' h hnd
  have hmain : regOps st'.trace = unregOps st'.trace := by
    match hs, h with
    | [], h =>
      match tmo, h with
      | Timeout.now, h => cases h; rfl
      | Timeout.never, h => cases h; exact absurd rfl hnd
      | Timeout.At t, h => cases h; rfl
    | e :: rest, h =>
      match tmo, h with
      | Timeout.now, h =>
        obtain ⟨tr, htr, hall⟩ :=
          nowPath_evs env (shuffle (e :: rest)) fuel St.init
        have h' : nowPath env (shuffle (e :: rest)) fuel St.init =
            (r, st') := h
        rw [h'] at htr
        have htr' : st'.trace = St.init.trace ++ tr := htr
        have hRU := regOps_nil_of fun ev hev =>
          isRegU_false_of_probe (hall ev hev)
        rw [htr', regOps_append, unregOps_append, hRU.1, hRU.2]
        rfl
      | Timeout.never, h =>
        have h' : outerLoop env shuffle (shuffle (e :: rest)) Timeout.never
            fuel St.init = (r, st') := h
        obtain ⟨tr, htr, hbal⟩ := outerLoop_balance env shuffle
          (shuffle (e :: rest)) Timeout.never fuel St.init r st' h' hnd
        rw [htr, regOps_append, unregOps_append, hbal]
        rfl
      | Timeout.At t, h =>
        have h' : outerLoop env shuffle (shuffle (e :: rest)) (Timeout.At t)
            fuel St.init = (r, st') := h
        obtain ⟨tr, htr, hbal⟩ := outerLoop_balance env shuffle
          (shuffle (e :: rest)) (Timeout.At t) fuel St.init r st' h' hnd
        rw [htr, regOps_append, unregOps_append, hbal]
        rfl
  refine ⟨hmain, fun op => ⟨?_, ?_⟩⟩
  · rw [(regCount_countP op st'.trace).1, (regCount_countP op st'.trace).2,
      hmain]
  · calc regFalseCount op st'.trace ≤ regCount op st'.trace :=
          regFalseCount_le op _
      _ = unregCount op st'.trace := by
          rw [(regCount_countP op _).1, (regCount_countP op _).2, hmain]

/-- Counterexample to C1 as stated: when a handle's `register` reports
readiness, `run_select` breaks out but still unregisters that handle (the
unregister loop runs over `take(registered_count)` and the count was
incremented before the call), so the endpoint sees zero false-returning
register calls yet one unregister call. -/
theorem c1_registration_balance_counterexample :
    ¬ ∀ op,
        regFalseCount op
          ((runSelect (mkEnv [false, true, false, true]) id 3 [⟨0, 42⟩]
            Timeout.never).2.trace) =
        unregCount op
          ((runSelect (mkEnv [false, true, false, true]) id 3 [⟨0, 42⟩]
            Timeout.never).2.trace) :=
  fun h => absurd (h 10) (by decide)

/-- Witness for C1 (amended) on a concrete completed run. -/
theorem c1_registration_balance_witness :
    regOps ((runSelect (mkEnv [false, true, false, true]) id 3 [⟨0, 42⟩]
        Timeout.never).2.trace) =
      unregOps ((runSelect (mkEnv [false, true, false, true]) id 3 [⟨0, 42⟩]
        Timeout.never).2.trace) :=
  (c1_registration_balance (mkEnv [false, true, false, true]) id 3 [⟨0, 42⟩]
    Timeout.never
    (runSelect (mkEnv [false, true, false, true]) id 3 [⟨0, 42⟩]
      Timeout.never).1
    (runSelect (mkEnv [false, true, false, true]) id 3 [⟨0, 42⟩]
      Timeout.never).2
    rfl (by decide)).1

/-- Claim C3: with `Timeout::At t`, when an outer-loop iteration ends with
no selected operation (the probe pass failed and the blocking body fell
through) and the clock reads at or past `t`, `run_select` performs exactly
one final non-blocking pass — a recursive `run_select` with `Timeout::Now`
— and returns that pass's result; such a pass only probes and reads
states, so the whole timed select ends as a single non-blocking poll at
the deadline. -/
theorem c3_deadline_final_poll :
    (∀ env shuffle hs t st st1 (o : BBOut) fuel,
      tryPass env hs st = (none, st1) →
      blockingBody env hs (Timeout.At t) st1 = o →
      o.res = BB.ret none →
      t ≤ env.nowAns o.st.k →
      outerLoop env shuffle hs (Timeout.At t) (fuel + 1) st =
        runSelectNow env shuffle fuel hs
          ((o.st.push (Ev.nowEv (env.nowAns o.st.k))).bump env)) ∧
    (∀ env shuffle fuel hs0 st, ∃ tr,
      ((runSelectNow env shuffle fuel hs0 st).2).trace = st.trace ++ tr ∧
      ∀ ev ∈ tr, ev.isTrySel = true ∨ ev.isState = true) := by
  constructor
  · intro env shuffle hs t st st1 o fuel htp hbb hres hle
    simp only [outerLoop, htp, hbb, hres]
    rw [if_pos hle]
  · exact fun env shuffle fuel hs0 st =>
      runSelectNow_evs env shuffle fuel hs0 st

/-- Witness for C3: a concrete deadline run that falls through to the
final non-blocking pass. -/
theorem c3_deadline_final_poll_witness :
    outerLoop (mkEnv []) id [⟨0, 5⟩] (Timeout.At 0) 2 St.init =
      runSelectNow (mkEnv []) id 1 [⟨0, 5⟩]
        (((blockingBody (mkEnv []) [⟨0, 5⟩] (Timeout.At 0)
            (tryPass (mkEnv []) [⟨0, 5⟩] St.init).2).st.push
          (Ev.nowEv ((mkEnv []).nowAns
            (blockingBody (mkEnv []) [⟨0, 5⟩] (Timeout.At 0)
              (tryPass (mkEnv []) [⟨0, 5⟩] St.init).2).st.k))).bump
          (mkEnv [])) :=
  c3_deadline_final_poll.1 (mkEnv []) id [⟨0, 5⟩] 0 St.init
    (tryPass (mkEnv []) [⟨0, 5⟩] St.init).2
    (blockingBody (mkEnv []) [⟨0, 5⟩] (Timeout.At 0)
      (tryPass (mkEnv []) [⟨0, 5⟩] St.init).2) 1
    (by decide) rfl (by decide) (by decide)

/-- Claim C4: in the non-blocking path, a list with at most one entry gets
a single probe pass (first success returned, else none); a longer list is
snapshotted and retried, and none is returned only after a full probe pass
failed on every handle and a re-read of every `state()` exactly repeated
the previous snapshot. -/
theorem c4_now_path :
    (∀ env hs fuel st, hs.length ≤ 1 →
      ((nowPath env hs fuel st).1 = RunRes.nothingReady →
        ((nowPath env hs fuel st).2).trace = st.trace ++ failPass hs) ∧
      (∀ tok i p, (nowPath env hs fuel st).1 = RunRes.found tok i p →
        ∃ l1 e l2, hs = l1 ++ e :: l2 ∧ i = e.idx ∧ p = e.ptr ∧
          ((nowPath env hs fuel st).2).trace =
            st.trace ++ failPass l1 ++ [Ev.trySelEv e.idx e.ptr true])) ∧
    (∀ env hs fuel st st', 1 < hs.length →
      nowPath env hs fuel st = (RunRes.nothingReady, st') →
      ∃ A vs, vs.length = hs.length ∧
        st'.trace = A ++ stateEvs vs ++ failPass hs ++ stateEvs vs) := by
  constructor
  · intro env hs fuel st hlen
    rcases htp : tryPass env hs st with ⟨r, st1⟩
    have hspec := tryPass_spec env hs st r st1 htp
    constructor
    · intro hres
      match r, htp with
      | some (i, p), htp =>
        have hnp : nowPath env hs fuel st = (RunRes.found st1.tok i p, st1) := by
          unfold nowPath
          rw [if_pos hlen, htp]
        rw [hnp] at hres
        cases hres
      | none, htp =>
        have hnp : nowPath env hs fuel st = (RunRes.nothingReady, st1) := by
          unfold nowPath
          rw [if_pos hlen, htp]
        rw [hnp]
        exact hspec.1 rfl
    · intro tok i p hres
      match r, htp with
      | none, htp =>
        have hnp : nowPath env hs fuel st = (RunRes.nothingReady, st1) := by
          unfold nowPath
          rw [if_pos hlen, htp]
        rw [hnp] at hres
        cases hres
      | some (i0, p0), htp =>
        have hnp : nowPath env hs fuel st = (RunRes.found st1.tok i0 p0, st1) := by
          unfold nowPath
          rw [if_pos hlen, htp]
        rw [hnp] at hres
        obtain ⟨l1, e, l2, hl, hi, hp, htr⟩ := hspec.2 i0 p0 rfl
        cases hres
        exact ⟨l1, e, l2, hl, hi, hp, by rw [hnp]; exact htr⟩
  · intro env hs fuel st st' hlen h
    rcases hrs : readStates env hs st with ⟨states, st1⟩
    obtain ⟨hslen, htr1⟩ := readStates_spec env hs st states st1 hrs
    have h' : nowLoop env hs fuel states st1 = (RunRes.nothingReady, st') := by
      have heq : nowPath env hs fuel st = nowLoop env hs fuel states st1 := by
        unfold nowPath
        rw [if_neg (by omega), hrs]
      rw [← heq]
      exact h
    exact nowLoop_none_spec env hs fuel states st1 st' st.trace hslen
      (by rw [htr1]) h'

/-- Witness for C4: a singleton list whose probe fails records exactly one
failing probe event. -/
theorem c4_now_path_witness :
    ((nowPath (mkEnv []) [⟨0, 5⟩] 0 St.init).2).trace =
      St.init.trace ++ failPass [⟨0, 5⟩] :=
  ((c4_now_path.1 (mkEnv []) [⟨0, 5⟩] 0 St.init (by decide)).1 (by decide))

/-- The handle list `Select.addAll` builds. -/
lemma addAll_handles : ∀ (l : List AddOp) (sel : Select),
    (Select.addAll sel l).handles =
      sel.handles ++ expectedHandles sel.handles.length l := by
  intro l
  induction l with
  | nil => intro sel; simp [Select.addAll, expectedHandles]
  | cons op rest ih =>
    intro sel
    match op with
    | AddOp.snd a =>
      rw [Select.addAll, ih]
      simp [Select.send, expectedHandles, AddOp.addr]
    | AddOp.rcv a =>
      rw [Select.addAll, ih]
      simp [Select.recv, expectedHandles, AddOp.addr]

/-- Length of the built handle list. -/
lemma expectedHandles_length : ∀ (l : List AddOp) (n : Nat),
    (expectedHandles n l).length = l.length := by
  intro l
  induction l with
  | nil => intro n; rfl
  | cons op rest ih => intro n; simp [expectedHandles, ih]

/-- The k-th built entry carries index `n + k` and the k-th endpoint
address. -/
lemma expectedHandles_get : ∀ (l : List AddOp) (n k : Nat)
    (h : k < (expectedHandles n l).length) (hk : k < l.length),
    (expectedHandles n l).get ⟨k, h⟩ = ⟨n + k, (l.get ⟨k, hk⟩).addr⟩ := by
  intro l
  induction l with
  | nil => intro n k h hk; simp [expectedHandles] at h
  | cons op rest ih =>
    intro n k h hk
    match k with
    | 0 => simp [expectedHandles]
    | k + 1 =>
      have hk' : k < rest.length := by simpa [Nat.succ_lt_succ_iff] using hk
      have := ih (n + 1) k
        (by simpa [expectedHandles, Nat.succ_lt_succ_iff] using h) hk'
      simp only [expectedHandles, List.get] at this ⊢
      rw [this]
      congr 1
      omega

/-- Every built entry is the k-th entry for some position k. -/
lemma expectedHandles_mem : ∀ (l : List AddOp) (n : Nat) (e : Entry),
    e ∈ expectedHandles n l →
    ∃ k, ∃ hk : k < l.length, e.idx = n + k ∧ e.ptr = (l.get ⟨k, hk⟩).addr := by
  intro l
  induction l with
  | nil => intro n e he; simp [expectedHandles] at he
  | cons op rest ih =>
    intro n e he
    rcases List.mem_cons.mp he with hh | hh
    · exact ⟨0, by simp, by rw [hh]; simp, by rw [hh]; simp [List.get]⟩
    · obtain ⟨k, hk, hidx, hptr⟩ := ih (n + 1) e hh
      exact ⟨k + 1, by simpa [Nat.succ_lt_succ_iff] using hk,
        by rw [hidx]; omega, hptr⟩

/-- Claim C2: in the blocking path, a `register` that reports readiness
triggers `cx.try_select(Aborted)`; if that CAS succeeds, the readied
entry's index is recorded as `ready_index` and registration stops (the new
trace is a block of failing registers, the ready register and the winning
CAS, and nothing else); after unregistration, in the `Aborted` case with
`ready_index` set, `try_select` is attempted only on entries carrying that
index, returning that index and the probed entry's pointer on success and
otherwise falling through with none. -/
theorem c2_ready_register_abort :
    (∀ env (l : List Entry) (p cnt : Nat) (st : St) sel' cnt' ir st',
      regLoop env l p cnt st = (sel', cnt', some ir, st') →
      sel' = Selected.aborted ∧ st'.slot = Selected.aborted ∧
      ∃ j e, l.get? j = some e ∧ ir = e.idx ∧ cnt' = cnt + j + 1 ∧
        st'.trace = st.trace ++
          (((List.range j).map fun m =>
            Ev.regEv (env.opAddr (p + m)) false) ++
            [Ev.regEv (env.opAddr (p + j)) true, Ev.casEv true])) ∧
    (∀ env hs tmo st ir,
      (blockingBody env hs tmo st).idxReady = some ir →
      (blockingBody env hs tmo st).sel = Selected.aborted ∧
      ((blockingBody env hs tmo st).res = BB.ret none ∨
        ∃ e ∈ hs, e.idx = ir ∧
          (blockingBody env hs tmo st).res = BB.ret (some (ir, e.ptr)))) ∧
    (∀ env ir (l : List Entry) (st : St) r st',
      abortedScan env ir l st = (r, st') →
      (∃ tr, st'.trace = st.trace ++ tr ∧
        ∀ ev ∈ tr, ∃ b e, e ∈ l ∧ e.idx = ir ∧
          ev = Ev.trySelEv ir e.ptr b) ∧
      (∀ i p, r = some (i, p) → i = ir ∧ ∃ e ∈ l, e.idx = ir ∧ e.ptr = p)) :=
  ⟨fun env l p cnt st sel' cnt' ir st' h =>
      regLoop_ready_spec env l p cnt st sel' cnt' ir st' h,
    fun env hs tmo st ir h => blockingBody_ready_index env hs tmo st ir h,
    fun env ir l st r st' h => abortedScan_spec env ir l st r st' h⟩

/-- Witness for C2: a concrete registration in which the single handle
reports readiness and the CAS to `Aborted` wins. -/
theorem c2_ready_register_abort_witness :
    Selected.aborted = Selected.aborted ∧
    ((regLoop (mkEnv [true]) [⟨7, 50⟩] 0 0 St.init).2.2.2).slot =
      Selected.aborted ∧
    ∃ j e, ([⟨7, 50⟩] : List Entry).get? j = some e ∧ 7 = e.idx ∧
      1 = 0 + j + 1 ∧
      ((regLoop (mkEnv [true]) [⟨7, 50⟩] 0 0 St.init).2.2.2).trace =
        St.init.trace ++
          (((List.range j).map fun m =>
            Ev.regEv ((mkEnv [true]).opAddr (0 + m)) false) ++
            [Ev.regEv ((mkEnv [true]).opAddr (0 + j)) true, Ev.casEv true]) :=
  c2_ready_register_abort.1 (mkEnv [true]) [⟨7, 50⟩] 0 0 St.init
    Selected.aborted 1 7
    ((regLoop (mkEnv [true]) [⟨7, 50⟩] 0 0 St.init).2.2.2) (by decide)

/-- A success of the non-blocking retry loop originates from the handle
list. -/
lemma nowLoop_origin (env : PeerEnv) (hs : List Entry) :
    ∀ (fuel : Nat) (states : List Nat) (st : St) (tok i p : Nat) (st' : St),
      nowLoop env hs fuel states st = (RunRes.found tok i p, st') →
      ∃ e ∈ hs, e.idx = i ∧ e.ptr = p := by
  intro fuel
  induction fuel with
  | zero => intro states st tok i p st' h; simp [nowLoop] at h
  | succ fuel ih =>
    intro states st tok i p st' h
    rcases htp : tryPass env hs st with ⟨r, st1⟩
    match r, htp with
    | some (i0, p0), htp =>
      simp only [nowLoop, htp] at h
      obtain ⟨l1, e, l2, hl, hi, hp, _⟩ :=
        (tryPass_spec env hs st _ _ htp).2 i0 p0 rfl
      cases h
      exact ⟨e, by rw [hl]; simp, hi.symm, hp.symm⟩
    | none, htp =>
      rcases hsc : stateCheck env hs states st1 with ⟨vs, ch, st2⟩
      simp only [nowLoop, htp, hsc] at h
      by_cases hch : ch = true
      · rw [if_pos hch] at h
        exact ih vs st2 tok i p st' h
      · rw [if_neg hch] at h
        cases h

/-- A success of the non-blocking path originates from the handle list. -/
lemma nowPath_origin (env : PeerEnv) (hs : List Entry) (fuel : Nat)
    (st : St) (tok i p : Nat) (st' : St)
    (h : nowPath env hs fuel st = (RunRes.found tok i p, st')) :
    ∃ e ∈ hs, e.idx = i ∧ e.ptr = p := by
  unfold nowPath at h
  by_cases hlen : hs.length ≤ 1
  · rw [if_pos hlen] at h
    rcases htp : tryPass env hs st with ⟨r, st1⟩
    rw [htp] at h
    match r, htp, h with
    | some (i0, p0), htp, h =>
      have h' : ((RunRes.found st1.tok i0 p0, st1) : RunRes × St) =
          (RunRes.found tok i p, st') := h
      obtain ⟨l1, e, l2, hl, hi, hp, _⟩ :=
        (tryPass_spec env hs st _ _ htp).2 i0 p0 rfl
      cases h'
      exact ⟨e, by rw [hl]; simp, hi.symm, hp.symm⟩
    | none, htp, h =>
      have h' : ((RunRes.nothingReady, st1) : RunRes × St) =
          (RunRes.found tok i p, st') := h
      cases h'
  · rw [if_neg hlen] at h
    rcases hrs : readStates env hs st with ⟨states, st1⟩
    rw [hrs] at h
    have h' : nowLoop env hs fuel states st1 = (RunRes.found tok i p, st') := h
    exact nowLoop_origin env hs fuel states st1 tok i p st' h'

/-- A success of a full non-blocking invocation originates from the
shuffled handle list. -/
lemma runSelectNow_origin (env : PeerEnv) (shuffle : List Entry → List Entry)
    (fuel : Nat) (hs0 : List Entry) (st : St) (tok i p : Nat) (st' : St)
    (h : runSelectNow env shuffle fuel hs0 st = (RunRes.found tok i p, st')) :
    ∃ e ∈ shuffle hs0, e.idx = i ∧ e.ptr = p := by
  match hs0, h with
  | [], h => simp [runSelectNow] at h
  | e0 :: rest, h =>
    have h' : nowPath env (shuffle (e0 :: rest)) fuel { st with tok := 0 } =
        (RunRes.found tok i p, st') := h
    exact nowPath_origin env _ fuel _ tok i p st' h'

/-- A success of the blocking outer loop originates from the handle
list. -/
lemma outerLoop_origin (env : PeerEnv) (shuffle : List Entry → List Entry)
    (hs : List Entry) (tmo : Timeout)
    (hsh : ∀ xs : List Entry, (shuffle xs).Perm xs) :
    ∀ (fuel : Nat) (st : St) (tok i p : Nat) (st' : St),
      outerLoop env shuffle hs tmo fuel st = (RunRes.found tok i p, st') →
      ∃ e ∈ hs, e.idx = i ∧ e.ptr = p := by
  intro fuel
  induction fuel with
  | zero => intro st tok i p st' h; simp [outerLoop] at h
  | succ fuel ih =>
    intro st tok i p st' h
    rcases htp : tryPass env hs st with ⟨r1, st1⟩
    match r1, htp with
    | some (i0, p0), htp =>
      simp only [outerLoop, htp] at h
      obtain ⟨l1, e, l2, hl, hi, hp, _⟩ :=
        (tryPass_spec env hs st _ _ htp).2 i0 p0 rfl
      cases h
      exact ⟨e, by rw [hl]; simp, hi.symm, hp.symm⟩
    | none, htp =>
      simp only [outerLoop, htp] at h
      rcases hbb : blockingBody env hs tmo st1 with ⟨res, selB, cntB, irB, stB⟩
      rw [hbb] at h
      match res, h with
      | BB.diverge, h =>
        have h' : ((RunRes.diverge, stB) : RunRes × St) =
            (RunRes.found tok i p, st') := h
        cases h'
      | BB.unreach, h =>
        have h' : ((RunRes.unreach, stB) : RunRes × St) =
            (RunRes.found tok i p, st') := h
        cases h'
      | BB.ret (some (i0, p0)), h =>
        have h' : ((RunRes.found stB.tok i0 p0, stB) : RunRes × St) =
            (RunRes.found tok i p, st') := h
        have horig := blockingBody_origin env hs tmo st1 i0 p0 (by rw [hbb])
        cases h'
        exact horig
      | BB.ret none, h =>
        match tmo, ih, h with
        | Timeout.now, _, h =>
          have h' : ((RunRes.unreach, stB) : RunRes × St) =
              (RunRes.found tok i p, st') := h
          cases h'
        | Timeout.never, ih, h =>
          have h' : outerLoop env shuffle hs Timeout.never fuel stB =
              (RunRes.found tok i p, st') := h
          exact ih stB tok i p st' h'
        | Timeout.At t, ih, h =>
          by_cases hle : t ≤ env.nowAns stB.k
          · have h' : runSelectNow env shuffle fuel hs
                ((stB.push (Ev.nowEv (env.nowAns stB.k))).bump env) =
                (RunRes.found tok i p, st') := by
              have h2 : (if t ≤ env.nowAns stB.k then
                  runSelectNow env shuffle fuel hs
                    ((stB.push (Ev.nowEv (env.nowAns stB.k))).bump env)
                else outerLoop env shuffle hs (Timeout.At t) fuel
                    ((stB.push (Ev.nowEv (env.nowAns stB.k))).bump env)) =
                  (RunRes.found tok i p, st') := h
              rwa [if_pos hle] at h2
            obtain ⟨e, he, hi, hp⟩ :=
              runSelectNow_origin env shuffle fuel hs _ tok i p st' h'
            exact ⟨e, (hsh hs).mem_iff.mp he, hi, hp⟩
          · have h' : outerLoop env shuffle hs (Timeout.At t) fuel
                ((stB.push (Ev.nowEv (env.nowAns stB.k))).bump env) =
                (RunRes.found tok i p, st') := by
              have h2 : (if t ≤ env.nowAns stB.k then
                  runSelectNow env shuffle fuel hs
                    ((stB.push (Ev.nowEv (env.nowAns stB.k))).bump env)
                else outerLoop env shuffle hs (Timeout.At t) fuel
                    ((stB.push (Ev.nowEv (env.nowAns stB.k))).bump env)) =
                  (RunRes.found tok i p, st') := h
              rwa [if_neg hle] at h2
            exact ih _ tok i p st' h'

/-- A success of `run_select` originates from an entry of the original
handle list: the shuffle only permutes it. -/
lemma runSelect_origin (env : PeerEnv) (shuffle : List Entry → List Entry)
    (fuel : Nat) (hs0 : List Entry) (tmo : Timeout) (tok i p : Nat)
    (st' : St) (hsh : ∀ xs : List Entry, (shuffle xs).Perm xs)
    (h : runSelect env shuffle fuel hs0 tmo = (RunRes.found tok i p, st')) :
    ∃ e ∈ hs0, e.idx = i ∧ e.ptr = p := by
  match hs0, h with
  | [], h =>
    match tmo, h with
    | Timeout.now, h => cases h
    | Timeout.never, h => cases h
    | Timeout.At t, h => cases h
  | e0 :: rest, h =>
    match tmo, h with
    | Timeout.now, h =>
      have h' : nowPath env (shuffle (e0 :: rest)) fuel St.init =
          (RunRes.found tok i p, st') := h
      obtain ⟨e, he, hi, hp⟩ := nowPath_origin env _ fuel _ tok i p st' h'
      exact ⟨e, (hsh (e0 :: rest)).mem_iff.mp he, hi, hp⟩
    | Timeout.never, h =>
      have h' : outerLoop env shuffle (shuffle (e0 :: rest)) Timeout.never
          fuel St.init = (RunRes.found tok i p, st') := h
      obtain ⟨e, he, hi, hp⟩ := outerLoop_origin env shuffle _ Timeout.never
        hsh fuel St.init tok i p st' h'
      exact ⟨e, (hsh (e0 :: rest)).mem_iff.mp he, hi, hp⟩
    | Timeout.At t, h =>
      have h' : outerLoop env shuffle (shuffle (e0 :: rest)) (Timeout.At t)
          fuel St.init = (RunRes.found tok i p, st') := h
      obtain ⟨e, he, hi, hp⟩ := outerLoop_origin env shuffle _ (Timeout.At t)
        hsh fuel St.init tok i p st' h'
      exact ⟨e, (hsh (e0 :: rest)).mem_iff.mp he, hi, hp⟩

/-- A readiness hit of the probe pass originates from the handle list. -/
lemma readyPass_origin (env : PeerEnv) :
    ∀ (l : List Entry) (st : St) (i : Nat) (st' : St),
      readyPass env l st = (some i, st') → ∃ e ∈ l, e.idx = i := by
  intro l
  induction l with
  | nil => intro st i st' h; simp [readyPass] at h
  | cons e rest ih =>
    intro st i st' h
    simp only [readyPass] at h
    by_cases hok : env.ans st.k
    · rw [if_pos (by simp [hok])] at h
      cases h
      exact ⟨e, List.mem_cons_self _ _, rfl⟩
    · have hb : env.ans st.k = false := by
        cases hba : env.ans st.k
        · rfl
        · exact absurd hba hok
      rw [if_neg (by simp [hb])] at h
      obtain ⟨e1, he1, hidx⟩ := ih _ _ _ h
      exact ⟨e1, List.mem_cons_of_mem _ he1, hidx⟩

/-- A readiness hit of the backoff loop originates from the handle
list. -/
lemma backoffLoop_origin (env : PeerEnv) (hs : List Entry) :
    ∀ (fuel : Nat) (st : St) (i : Nat) (st' : St),
      backoffLoop env hs fuel st = (some (some i), st') →
      ∃ e ∈ hs, e.idx = i := by
  intro fuel
  induction fuel with
  | zero => intro st i st' h; simp [backoffLoop] at h
  | succ fuel ih =>
    intro st i st' h
    rcases hrp : readyPass env hs st with ⟨r, st1⟩
    match r, hrp with
    | some i0, hrp =>
      simp only [backoffLoop, hrp] at h
      have horig := readyPass_origin env hs st i0 st1 hrp
      cases h
      exact horig
    | none, hrp =>
      simp only [backoffLoop, hrp] at h
      by_cases hag : env.ans st1.k
      · rw [if_pos (by simp [hag])] at h
        exact ih _ i st' h
      · have hb : env.ans st1.k = false := by
          cases hba : env.ans st1.k
          · rfl
          · exact absurd hba hag
        rw [if_neg (by simp [hb])] at h
        cases h

/-- The wakeup scan of `run_ready` reports an index of the handle list. -/
lemma readyScan_origin (env : PeerEnv) (sel : Selected) :
    ∀ (l : List Entry) (p0 : Nat) (i : Nat),
      readyScan env sel l p0 = some i → ∃ e ∈ l, e.idx = i := by
  intro l
  induction l with
  | nil => intro p0 i h; simp [readyScan] at h
  | cons e rest ih =>
    intro p0 i h
    simp only [readyScan] at h
    by_cases heq : sel = Selected.operation (Operation.ofAddr (env.opAddr p0))
    · rw [if_pos heq] at h
      cases h
      exact ⟨e, List.mem_cons_self _ _, rfl⟩
    · rw [if_neg heq] at h
      obtain ⟨e1, he1, hidx⟩ := ih _ _ h
      exact ⟨e1, List.mem_cons_of_mem _ he1, hidx⟩

/-- A success of the `run_ready` blocking body originates from the handle
list. -/
lemma readyBody_origin (env : PeerEnv) (hs : List Entry) (tmo : Timeout)
    (st : St) (i : Nat) (st' : St)
    (h : readyBody env hs tmo st = (BB.ret (some i), st')) :
    ∃ e ∈ hs, e.idx = i := by
  rcases hwl : watchLoop env hs 0 0 { st with slot := Selected.waiting }
    with ⟨selW, cnt, st1⟩
  simp only [readyBody, hwl] at h
  by_cases hw : selW = Selected.waiting
  · rw [if_pos hw] at h
    rcases hfd : foldDeadlines env hs (timeoutDeadline tmo) st1 with ⟨dl, st2⟩
    rcases hW : ctxWaitUntil env dl st2 with ⟨sw, st3⟩
    simp only [hfd, hW] at h
    match sw, h with
    | none, h => simp at h
    | some sel, h =>
      match sel, h with
      | Selected.waiting, h => simp at h
      | Selected.aborted, h => simp at h
      | Selected.disconnected, h => simp at h
      | Selected.operation op, h =>
        simp only [Prod.mk.injEq, BB.ret.injEq] at h
        exact readyScan_origin env (Selected.operation op) hs 0 i h.1
  · rw [if_neg hw] at h
    match selW, h with
    | Selected.waiting, h => simp at h
    | Selected.aborted, h => simp at h
    | Selected.disconnected, h => simp at h
    | Selected.operation op, h =>
      simp only [Prod.mk.injEq, BB.ret.injEq] at h
      exact readyScan_origin env (Selected.operation op) hs 0 i h.1

/-- A success of the `run_ready` outer loop originates from the handle
list. -/
lemma readyOuter_origin (env : PeerEnv) (hs : List Entry) (tmo : Timeout) :
    ∀ (fuel : Nat) (st : St) (i : Nat) (st' : St),
      readyOuter env hs tmo fuel st = (ReadyRes.found i, st') →
      ∃ e ∈ hs, e.idx = i := by
  intro fuel
  induction fuel with
  | zero => intro st i st' h; simp [readyOuter] at h
  | succ fuel ih =>
    intro st i st' h
    rcases hbl : backoffLoop env hs (fuel + 1) st with ⟨r1, st1⟩
    simp only [readyOuter, hbl] at h
    match r1, h with
    | none, h => simp at h
    | some (some i0), h =>
      have h' : ((ReadyRes.found i0, st1) : ReadyRes × St) =
          (ReadyRes.found i, st') := h
      have horig := backoffLoop_origin env hs (fuel + 1) st i0 st1 hbl
      cases h'
      exact horig
    | some none, h =>
      match tmo, ih, h with
      | Timeout.now, _, h =>
        have h' : ((ReadyRes.nothingReady, st1) : ReadyRes × St) =
            (ReadyRes.found i, st') := h
        cases h'
      | Timeout.never, ih, h =>
        rcases hrb : readyBody env hs Timeout.never st1 with ⟨res, st3⟩
        have h' : (match readyBody env hs Timeout.never st1 with
            | (BB.diverge, st3) => ((ReadyRes.diverge, st3) : ReadyRes × St)
            | (BB.unreach, st3) => (ReadyRes.unreach, st3)
            | (BB.ret (some j), st3) => (ReadyRes.found j, st3)
            | (BB.ret none, st3) =>
              readyOuter env hs Timeout.never fuel st3) =
            (ReadyRes.found i, st') := h
        rw [hrb] at h'
        match res, h' with
        | BB.diverge, h' => simp at h'
        | BB.unreach, h' => simp at h'
        | BB.ret (some j), h' =>
          have h2 : ((ReadyRes.found j, st3) : ReadyRes × St) =
              (ReadyRes.found i, st') := h'
          have horig := readyBody_origin env hs Timeout.never st1 j st3 hrb
          cases h2
          exact horig
        | BB.ret none, h' =>
          have h2 : readyOuter env hs Timeout.never fuel st3 =
              (ReadyRes.found i, st') := h'
          exact ih st3 i st' h2
      | Timeout.At t, ih, h =>
        have hT : (match (decide (t ≤ env.nowAns st1.k),
              (st1.push (Ev.nowEv (env.nowAns st1.k))).bump env) with
            | (true, st2) => ((ReadyRes.nothingReady, st2) : ReadyRes × St)
            | (false, st2) =>
              match readyBody env hs (Timeout.At t) st2 with
              | (BB.diverge, st3) => (ReadyRes.diverge, st3)
              | (BB.unreach, st3) => (ReadyRes.unreach, st3)
              | (BB.ret (some j), st3) => (ReadyRes.found j, st3)
              | (BB.ret none, st3) =>
                readyOuter env hs (Timeout.At t) fuel st3) =
            (ReadyRes.found i, st') := h
        by_cases hle : t ≤ env.nowAns st1.k
        · rw [decide_eq_true hle] at hT
          have h' : ((ReadyRes.nothingReady,
              (st1.push (Ev.nowEv (env.nowAns st1.k))).bump env) :
              ReadyRes × St) = (ReadyRes.found i, st') := hT
          cases h'
        · rw [decide_eq_false hle] at hT
          rcases hrb : readyBody env hs (Timeout.At t)
              ((st1.push (Ev.nowEv (env.nowAns st1.k))).bump env)
            with ⟨res, st3⟩
          have h' : (match readyBody env hs (Timeout.At t)
              ((st1.push (Ev.nowEv (env.nowAns st1.k))).bump env) with
            | (BB.diverge, st3) => ((ReadyRes.diverge, st3) : ReadyRes × St)
            | (BB.unreach, st3) => (ReadyRes.unreach, st3)
            | (BB.ret (some j), st3) => (ReadyRes.found j, st3)
            | (BB.ret none, st3) =>
              readyOuter env hs (Timeout.At t) fuel st3) =
            (ReadyRes.found i, st') := hT
          rw [hrb] at h'
          match res, h' with
          | BB.diverge, h' => simp at h'
          | BB.unreach, h' => simp at h'
          | BB.ret (some j), h' =>
            have h2 : ((ReadyRes.found j, st3) : ReadyRes × St) =
                (ReadyRes.found i, st') := h'
            have horig := readyBody_origin env hs (Timeout.At t) _ j st3 hrb
            cases h2
            exact horig
          | BB.ret none, h' =>
            have h2 : readyOuter env hs (Timeout.At t) fuel st3 =
                (ReadyRes.found i, st') := h'
            exact ih st3 i st' h2

/-- An index reported by `run_ready` originates from the original handle
list. -/
lemma runReady_origin (env : PeerEnv) (shuffle : List Entry → List Entry)
    (fuel : Nat) (hs0 : List Entry) (tmo : Timeout) (i : Nat) (st' : St)
    (hsh : ∀ xs : List Entry, (shuffle xs).Perm xs)
    (h : runReady env shuffle fuel hs0 tmo = (ReadyRes.found i, st')) :
    ∃ e ∈ hs0, e.idx = i := by
  match hs0, h with
  | [], h =>
    match tmo, h with
    | Timeout.now, h => cases h
    | Timeout.never, h => cases h
    | Timeout.At t, h => cases h
  | e0 :: rest, h =>
    have h' : readyOuter env (shuffle (e0 :: rest)) tmo fuel St.init =
        (ReadyRes.found i, st') := h
    obtain ⟨e, he, hidx⟩ := readyOuter_origin env _ tmo fuel St.init i st' h'
    exact ⟨e, (hsh (e0 :: rest)).mem_iff.mp he, hidx⟩

/-- Claim C10: every successful `run_select` result and every `run_ready`
index comes from a tuple of the handle list, unchanged by the in-place
shuffle; for a list built through `Select::send`/`Select::recv` the
returned index is below the number of added operations, the returned
pointer is the address of the endpoint added at exactly that index, and
(for pairwise distinct endpoint addresses) the address assertion in
`SelectedOperation::send` succeeds precisely for the endpoint added at
`index()`. -/
theorem c10_result_origin :
    (∀ env shuffle fuel (hs : List Entry) tmo tok i p st',
      (∀ xs : List Entry, (shuffle xs).Perm xs) →
      runSelect env shuffle fuel hs tmo = (RunRes.found tok i p, st') →
      ∃ e ∈ hs, e.idx = i ∧ e.ptr = p) ∧
    (∀ env shuffle fuel (hs : List Entry) tmo i st',
      (∀ xs : List Entry, (shuffle xs).Perm xs) →
      runReady env shuffle fuel hs tmo = (ReadyRes.found i, st') →
      ∃ e ∈ hs, e.idx = i) ∧
    (∀ env shuffle fuel (l : List AddOp) tmo tok i p st',
      (∀ xs : List Entry, (shuffle xs).Perm xs) →
      runSelect env shuffle fuel (Select.addAll Select.new l).handles tmo =
        (RunRes.found tok i p, st') →
      ∃ hi : i < l.length, p = (l.get ⟨i, hi⟩).addr ∧
        ((l.map AddOp.addr).Nodup →
          ∀ j (hj : j < l.length) (w : Bool),
            (((SelectedOperation.mk tok i p).send
              ((l.get ⟨j, hj⟩).addr) w).2).isSome ↔ j = i)) := by
  refine ⟨?_, ?_, ?_⟩
  · intro env shuffle fuel hs tmo tok i p st' hsh h
    exact runSelect_origin env shuffle fuel hs tmo tok i p st' hsh h
  · intro env shuffle fuel hs tmo i st' hsh h
    exact runReady_origin env shuffle fuel hs tmo i st' hsh h
  · intro env shuffle fuel l tmo tok i p st' hsh h
    obtain ⟨e, he, hidx, hptr⟩ :=
      runSelect_origin env shuffle fuel _ tmo tok i p st' hsh h
    have hhe : e ∈ expectedHandles 0 l := by
      have h2 : (Select.addAll Select.new l).handles = expectedHandles 0 l := by
        rw [addAll_handles]; simp [Select.new]
      rw [← h2]; exact he
    obtain ⟨k, hk, hik, hpk⟩ := expectedHandles_mem l 0 e hhe
    have hki : k = i := by omega
    subst hki
    refine ⟨hk, by rw [← hptr, hpk], ?_⟩
    intro hnd j hj w
    have hpi : p = (l.get ⟨k, hk⟩).addr := by rw [← hptr, hpk]
    constructor
    · intro hsome
      by_cases heq : (l.get ⟨j, hj⟩).addr = p
      · have hj' : j < (l.map AddOp.addr).length := by simpa using hj
        have hk' : k < (l.map AddOp.addr).length := by simpa using hk
        have hmapj : (l.map AddOp.addr).get ⟨j, hj'⟩ =
            (l.get ⟨j, hj⟩).addr := by simp [List.get_map]
        have hmapk : (l.map AddOp.addr).get ⟨k, hk'⟩ =
            (l.get ⟨k, hk⟩).addr := by simp [List.get_map]
        have hfin : (⟨j, hj'⟩ : Fin (l.map AddOp.addr).length) = ⟨k, hk'⟩ :=
          (hnd.get_inj_iff).mp (by rw [hmapj, hmapk, heq, hpi])
        simpa using hfin
      · exfalso
        simp only [SelectedOperation.send] at hsome
        rw [if_neg heq] at hsome
        simp at hsome
    · intro hji
      subst hji
      simp [SelectedOperation.send, hpi]

/-- Witness for C10: a concrete non-blocking success on a single-entry
list. -/
theorem c10_result_origin_witness :
    ∃ e ∈ ([⟨0, 42⟩] : List Entry), e.idx = 0 ∧ e.ptr = 42 :=
  c10_result_origin.1 (mkEnv [true]) id 1 [⟨0, 42⟩] Timeout.now 0 0 42
    (runSelect (mkEnv [true]) id 1 [⟨0, 42⟩] Timeout.now).2
    (fun xs => List.Perm.refl xs) (by decide)

/-- Claim C8: the `Selected` state is encoded in one machine word with
`Waiting = 0`, `Aborted = 1`, `Disconnected = 2` and `Operation(n) = n`;
`Operation::hook` panics unless the derived integer is at least 3, and
under that construction invariant the usize-to-`Selected` and
`Selected`-to-usize conversions are mutually inverse. -/
theorem c8_selected_encoding :
    (Selected.toNat Selected.waiting = 0 ∧
      Selected.toNat Selected.aborted = 1 ∧
      Selected.toNat Selected.disconnected = 2 ∧
      ∀ op, Selected.toNat (Selected.operation op) = op.val) ∧
    (∀ a, (Operation.hook a).isSome ↔ 3 ≤ a) ∧
    (∀ n, Selected.toNat (Selected.ofNat n) = n) ∧
    (∀ s, s.valid → Selected.ofNat s.toNat = s) := by
  refine ⟨⟨rfl, rfl, rfl, fun op => rfl⟩, ?_, ?_, ?_⟩
  · intro a
    by_cases h : 2 < a <;> simp [Operation.hook, h] <;> omega
  · intro n
    match n with
    | 0 => rfl
    | 1 => rfl
    | 2 => rfl
    | n + 3 => rfl
  · intro s hv
    match s, hv with
    | Selected.waiting, _ => rfl
    | Selected.aborted, _ => rfl
    | Selected.disconnected, _ => rfl
    | Selected.operation ⟨v⟩, hv =>
      match v, hv with
      | v + 3, _ => rfl

/-- Witness for C8: the round trip at the valid state `Operation 7`. -/
theorem c8_selected_encoding_witness :
    Selected.ofNat (Selected.toNat (Selected.operation ⟨7⟩)) =
      Selected.operation ⟨7⟩ :=
  c8_selected_encoding.2.2.2 (Selected.operation ⟨7⟩) (by simp [Selected.valid])

/-- Claim C9: `Select::send` and `Select::recv` push one tuple whose index
is the pre-push length of the handle list and return that length, so the
k-th operation added (across any mix of sends and receives) is assigned
index k. -/
theorem c9_select_indices :
    (∀ sel s, Select.send sel s =
      (sel.handles.length, ⟨sel.handles ++ [⟨sel.handles.length, s⟩]⟩)) ∧
    (∀ sel r, Select.recv sel r =
      (sel.handles.length, ⟨sel.handles ++ [⟨sel.handles.length, r⟩]⟩)) ∧
    (∀ l : List AddOp,
      (Select.addAll Select.new l).handles.length = l.length ∧
      ∀ k (h : k < (Select.addAll Select.new l).handles.length),
        ((Select.addAll Select.new l).handles.get ⟨k, h⟩).idx = k) := by
  refine ⟨fun sel s => rfl, fun sel r => rfl, fun l => ?_⟩
  constructor
  · rw [addAll_handles]
    simp [Select.new, expectedHandles_length]
  · intro k h
    have h2 : (Select.addAll Select.new l).handles = expectedHandles 0 l := by
      rw [addAll_handles]; simp [Select.new]
    have h3 : k < (expectedHandles 0 l).length := by rw [← h2]; exact h
    have hk : k < l.length := by rw [← expectedHandles_length l 0]; exact h3
    rw [List.get_of_eq h2 ⟨k, h⟩]
    rw [expectedHandles_get l 0 k h3 hk]
    simp

/-- Witness for C9: indices of three mixed additions. -/
theorem c9_select_indices_witness :
    ((Select.addAll Select.new [AddOp.rcv 4, AddOp.snd 5, AddOp.rcv 6]).handles.get
      ⟨2, by decide⟩).idx = 2 :=
  (c9_select_indices.2.2 [AddOp.rcv 4, AddOp.snd 5, AddOp.rcv 6]).2 2 (by decide)

/-- Claim C6: on an empty handle list `run_select` and `run_ready` behave
identically by timeout: `Now` returns none immediately, `Never` sleeps
forever and never returns, `At t` sleeps until `t` and then returns
none. -/
theorem c6_empty_list :
    ∀ env shuffle fuel,
      (runSelect env shuffle fuel [] Timeout.now =
          (RunRes.nothingReady, St.init) ∧
        runReady env shuffle fuel [] Timeout.now =
          (ReadyRes.nothingReady, St.init)) ∧
      (runSelect env shuffle fuel [] Timeout.never =
          (RunRes.diverge, St.init.push (Ev.sleepEv none)) ∧
        runReady env shuffle fuel [] Timeout.never =
          (ReadyRes.diverge, St.init.push (Ev.sleepEv none))) ∧
      (∀ t, runSelect env shuffle fuel [] (Timeout.At t) =
          (RunRes.nothingReady, St.init.push (Ev.sleepEv (some t))) ∧
        runReady env shuffle fuel [] (Timeout.At t) =
          (ReadyRes.nothingReady, St.init.push (Ev.sleepEv (some t)))) :=
  fun _env _shuffle _fuel => ⟨⟨rfl, rfl⟩, ⟨rfl, rfl⟩, fun _t => ⟨rfl, rfl⟩⟩

/-- Claim C7: blocking `Select::select` and `Select::ready` panic on an
empty selector, while `Select::try_select` returns `Err(TrySelectError)`
and `Select::try_ready` returns `Err(TryReadyError)` without panicking. -/
theorem c7_empty_select_api :
    ∀ env shuffle fuel,
      Select.select env shuffle fuel Select.new = ApiRes.panicked ∧
      Select.ready env shuffle fuel Select.new = ApiRes.panicked ∧
      Select.try_select env shuffle fuel Select.new =
        ApiRes.ok (Except.error TrySelectError.mk) ∧
      Select.try_ready env shuffle fuel Select.new =
        ApiRes.ok (Except.error TryReadyError.mk) := by
  intro env shuffle fuel
  refine ⟨?_, ?_, rfl, rfl⟩ <;> simp [Select.select, Select.ready, Select.new]

/-- Claim C5: `SelectedOperation::send` and `SelectedOperation::recv`
first assert that the passed endpoint address equals the stored one
(panicking on mismatch), then invoke the flavor's low-level `write`/`read`
with the token exactly once and suppress the destructor; dropping a
`SelectedOperation` without completing it panics. -/
theorem c5_completion_obligation :
    (∀ oper sAddr w, sAddr ≠ oper.ptr →
      SelectedOperation.send oper sAddr w = ([Eff.addrCheck false], none)) ∧
    (∀ oper rAddr w, rAddr ≠ oper.ptr →
      SelectedOperation.recv oper rAddr w = ([Eff.addrCheck false], none)) ∧
    (∀ oper w,
      (SelectedOperation.send oper oper.ptr w).1 =
        [Eff.addrCheck true, Eff.writeCall oper.token, Eff.forgetCall] ∧
      ((SelectedOperation.send oper oper.ptr w).1.countP Eff.isWrite) = 1 ∧
      Eff.forgetCall ∈ (SelectedOperation.send oper oper.ptr w).1 ∧
      (SelectedOperation.send oper oper.ptr w).2 ≠ none) ∧
    (∀ oper w,
      (SelectedOperation.recv oper oper.ptr w).1 =
        [Eff.addrCheck true, Eff.readCall oper.token, Eff.forgetCall] ∧
      ((SelectedOperation.recv oper oper.ptr w).1.countP Eff.isRead) = 1 ∧
      Eff.forgetCall ∈ (SelectedOperation.recv oper oper.ptr w).1 ∧
      (SelectedOperation.recv oper oper.ptr w).2 ≠ none) ∧
    (∀ oper, SelectedOperation.dropRun oper = [Eff.dropPanicked]) := by
  refine ⟨?_, ?_, ?_, ?_, fun oper => rfl⟩
  · intro oper sAddr w h
    simp [SelectedOperation.send, h]
  · intro oper rAddr w h
    simp [SelectedOperation.recv, h]
  · intro oper w
    refine ⟨?_, ?_, ?_, ?_⟩ <;>
      simp [SelectedOperation.send, List.countP_cons, Eff.isWrite]
  · intro oper w
    refine ⟨?_, ?_, ?_, ?_⟩ <;>
      simp [SelectedOperation.recv, List.countP_cons, Eff.isRead]

/-- Witness for C5: a mismatched sender address panics on the selected
operation with endpoint address 5. -/
theorem c5_completion_obligation_witness :
    SelectedOperation.send ⟨0, 0, 5⟩ 6 true = ([Eff.addrCheck false], none) :=
  c5_completion_obligation.1 ⟨0, 0, 5⟩ 6 true (by decide)

end Crossbeam
